import Mathlib

/-!
Verification of `src/transcriber/main.py` (openai-transcriber).

The development shallowly embeds the two core components of the program:

* `split_audio` — the Segmenter: decodes the input's duration, computes
  `ceil(T / max_duration)` windows and exports one chunk file per window
  into the temporary directory `temp_audio_segments`;
* `transcribe_with_models` — the Orchestrator: checks the API key, writes
  the header into the output file (mode `'w'`), transcribes each chunk in
  ordinal order appending each result (separator before every chunk after
  the first), and finally deletes the chunk files and removes the
  temporary directory (only on the success path, inside the same `try`).

Time is measured in milliseconds (`pydub`'s `len(audio)`); audio content
is represented by the window `[start, stop)` it occupies in the original
recording; the filesystem is an explicit record of audio files, text
files and directories; the remote transcription service is an oracle
`(ℕ × ℕ) → Option String` (`none` models a service failure), and the
list of windows submitted to it is traced in the run result.
-/

namespace Transcriber

/-! ### Association lists keyed by strings (the file stores of the model) -/

def alookup {α : Type} : List (String × α) → String → Option α
  | [], _ => none
  | (k, v) :: rest, q => if k = q then some v else alookup rest q

def aremove {α : Type} : List (String × α) → String → List (String × α)
  | [], _ => []
  | (k, v) :: rest, q => if k = q then aremove rest q else (k, v) :: aremove rest q

/-- Overwrite-or-create: the store after writing value `v` at key `q`. -/
def aset {α : Type} (l : List (String × α)) (q : String) (v : α) : List (String × α) :=
  aremove l q ++ [(q, v)]

theorem alookup_append_of_none {α : Type} {l : List (String × α)} {q : String}
    (h : alookup l q = none) (r : List (String × α)) :
    alookup (l ++ r) q = alookup r q := by
  induction l with
  | nil => simp
  | cons kv rest ih =>
    obtain ⟨k, v⟩ := kv
    by_cases hk : k = q
    · simp [alookup, hk] at h
    · simp only [alookup, hk, if_neg hk, List.cons_append] at h ⊢
      exact ih h

theorem alookup_append_of_some {α : Type} {l : List (String × α)} {q : String} {v : α}
    (h : alookup l q = some v) (r : List (String × α)) :
    alookup (l ++ r) q = some v := by
  induction l with
  | nil => simp [alookup] at h
  | cons kv rest ih =>
    obtain ⟨k, w⟩ := kv
    by_cases hk : k = q
    · simp only [alookup, if_pos hk] at h ⊢
      exact h
    · simp only [alookup, if_neg hk, List.cons_append] at h ⊢
      exact ih h

theorem alookup_aremove_self {α : Type} (l : List (String × α)) (q : String) :
    alookup (aremove l q) q = none := by
  induction l with
  | nil => rfl
  | cons kv rest ih =>
    obtain ⟨k, v⟩ := kv
    by_cases hk : k = q
    · simpa [aremove, hk] using ih
    · simpa [aremove, alookup, hk] using ih

theorem alookup_aremove_ne {α : Type} (l : List (String × α)) {q r : String}
    (h : q ≠ r) : alookup (aremove l q) r = alookup l r := by
  induction l with
  | nil => rfl
  | cons kv rest ih =>
    obtain ⟨k, v⟩ := kv
    by_cases hk : k = q
    · rw [aremove, if_pos hk, ih, alookup, if_neg (hk ▸ h : k ≠ r)]
    · rw [aremove, if_neg hk, alookup, alookup, ih]

theorem aremove_of_alookup_none {α : Type} {l : List (String × α)} {q : String}
    (h : alookup l q = none) : aremove l q = l := by
  induction l with
  | nil => rfl
  | cons kv rest ih =>
    obtain ⟨k, v⟩ := kv
    by_cases hk : k = q
    · simp [alookup, hk] at h
    · simp only [alookup, if_neg hk] at h
      simp only [aremove, if_neg hk, ih h]

theorem alookup_aset_self {α : Type} (l : List (String × α)) (q : String) (v : α) :
    alookup (aset l q v) q = some v := by
  rw [aset, alookup_append_of_none (alookup_aremove_self l q)]
  simp [alookup]

theorem alookup_aset_ne {α : Type} (l : List (String × α)) {q r : String} (v : α)
    (h : q ≠ r) : alookup (aset l q v) r = alookup l r := by
  rw [aset]
  rcases hcase : alookup (aremove l q) r with _ | w
  · rw [alookup_append_of_none hcase]
    rw [alookup_aremove_ne l h] at hcase
    simp [alookup, h, hcase]
  · rw [alookup_append_of_some hcase]
    rw [alookup_aremove_ne l h] at hcase
    exact hcase.symm

theorem aremove_append {α : Type} (l r : List (String × α)) (q : String) :
    aremove (l ++ r) q = aremove l q ++ aremove r q := by
  induction l with
  | nil => rfl
  | cons kv rest ih =>
    obtain ⟨k, v⟩ := kv
    by_cases hk : k = q <;> simp [aremove, hk, ih]

theorem aremove_aremove_self {α : Type} (l : List (String × α)) (q : String) :
    aremove (aremove l q) q = aremove l q :=
  aremove_of_alookup_none (alookup_aremove_self l q)

theorem aremove_aset_self {α : Type} (l : List (String × α)) (q : String) (v : α) :
    aremove (aset l q v) q = aremove l q := by
  rw [aset, aremove_append, aremove_aremove_self]
  simp [aremove]

theorem aremove_cons_pos {α : Type} {k q : String} (hk : k = q) (v : α)
    (rest : List (String × α)) : aremove ((k, v) :: rest) q = aremove rest q := by
  rw [aremove, if_pos hk]

theorem aremove_cons_neg {α : Type} {k q : String} (hk : ¬k = q) (v : α)
    (rest : List (String × α)) :
    aremove ((k, v) :: rest) q = (k, v) :: aremove rest q := by
  rw [aremove, if_neg hk]

theorem aremove_comm {α : Type} (l : List (String × α)) (q r : String) :
    aremove (aremove l q) r = aremove (aremove l r) q := by
  induction l with
  | nil => rfl
  | cons kv rest ih =>
    obtain ⟨k, v⟩ := kv
    by_cases hkq : k = q <;> by_cases hkr : k = r
    · rw [aremove_cons_pos hkq, aremove_cons_pos hkr, ih]
    · rw [aremove_cons_pos hkq, aremove_cons_neg hkr, aremove_cons_pos hkq, ih]
    · rw [aremove_cons_neg hkq, aremove_cons_pos hkr, aremove_cons_pos hkr, ih]
    · rw [aremove_cons_neg hkq, aremove_cons_neg hkr, aremove_cons_neg hkr,
        aremove_cons_neg hkq, ih]

theorem aremove_aset_ne {α : Type} (l : List (String × α)) {q r : String} (v : α)
    (h : q ≠ r) : aremove (aset l q v) r = aset (aremove l r) q v := by
  rw [aset, aremove_append, aset, aremove_comm]
  have hone : aremove [(q, v)] r = [(q, v)] := by
    rw [aremove_cons_neg h]
    rfl
  rw [hone]

theorem aset_aset_self {α : Type} (l : List (String × α)) (q : String) (a b : α) :
    aset (aset l q a) q b = aset l q b := by
  rw [aset, aremove_aset_self, aset]

theorem mem_aremove {α : Type} {kv : String × α} {l : List (String × α)} {q : String}
    (h : kv ∈ aremove l q) : kv ∈ l ∧ kv.1 ≠ q := by
  induction l with
  | nil => simp [aremove] at h
  | cons kv' rest ih =>
    obtain ⟨k, v⟩ := kv'
    by_cases hk : k = q
    · simp only [aremove, if_pos hk] at h
      exact ⟨List.mem_cons_of_mem _ (ih h).1, (ih h).2⟩
    · simp only [aremove, if_neg hk, List.mem_cons] at h
      rcases h with h | h
      · subst h; exact ⟨List.mem_cons_self _ _, hk⟩
      · exact ⟨List.mem_cons_of_mem _ (ih h).1, (ih h).2⟩

theorem mem_aset {α : Type} {kv : String × α} {l : List (String × α)} {q : String} {v : α}
    (h : kv ∈ aset l q v) : kv ∈ l ∨ kv = (q, v) := by
  rw [aset, List.mem_append] at h
  rcases h with h | h
  · exact Or.inl (mem_aremove h).1
  · simp at h; exact Or.inr h

/-! ### Boolean list/string prefix test (directory membership of a path) -/

def listPre : List Char → List Char → Bool
  | [], _ => true
  | _ :: _, [] => false
  | a :: as, b :: bs => a == b && listPre as bs

theorem listPre_append_self (l r : List Char) : listPre l (l ++ r) = true := by
  induction l with
  | nil => rfl
  | cons a as ih => simp [listPre, ih]

/-! ### Decimal rendering of naturals (`Nat.repr`) is injective

`split_audio` names its chunk files `segment_<i>.mp3`; distinctness of
these names (needed to reason about the chunk store) reduces to
injectivity of `Nat.repr`, proved here against core's fuelled
`Nat.toDigitsCore`. -/

def natChars (n : Nat) : List Char :=
  if n < 10 then [Nat.digitChar n]
  else natChars (n / 10) ++ [Nat.digitChar (n % 10)]
decreasing_by exact Nat.div_lt_self (by omega) (by omega)

theorem toDigitsCore_succ (b fuel n : Nat) (ds : List Char) :
    Nat.toDigitsCore b (fuel + 1) n ds =
      if n / b = 0 then Nat.digitChar (n % b) :: ds
      else Nat.toDigitsCore b fuel (n / b) (Nat.digitChar (n % b) :: ds) := rfl

theorem toDigitsCore_eq_natChars :
    ∀ (fuel n : Nat) (ds : List Char), n ≤ fuel →
      Nat.toDigitsCore 10 (fuel + 1) n ds = natChars n ++ ds := by
  intro fuel
  induction fuel with
  | zero =>
    intro n ds hn
    interval_cases n
    rw [toDigitsCore_succ, natChars]
    rfl
  | succ fuel ih =>
    intro n ds hn
    rw [toDigitsCore_succ]
    by_cases h10 : n < 10
    · have hdiv : n / 10 = 0 := Nat.div_eq_of_lt h10
      have hmod : n % 10 = n := Nat.mod_eq_of_lt h10
      rw [if_pos hdiv, natChars, if_pos h10, hmod]
      rfl
    · have hdiv : n / 10 ≠ 0 := by
        intro h
        exact h10 (by omega : n < 10)
      have hle : n / 10 ≤ fuel := by
        have hlt : n / 10 < n := Nat.div_lt_self (by omega) (by omega)
        omega
      rw [if_neg hdiv, ih (n / 10) (Nat.digitChar (n % 10) :: ds) hle]
      conv_rhs => rw [natChars]
      rw [if_neg h10, List.append_assoc]
      rfl

theorem toDigits_eq_natChars (n : Nat) : Nat.toDigits 10 n = natChars n := by
  have := toDigitsCore_eq_natChars n n [] (le_refl n)
  simpa [Nat.toDigits] using this

def decodeDigit (c : Char) : Nat := c.toNat - 48

theorem decodeDigit_digitChar {d : Nat} (h : d < 10) :
    decodeDigit (Nat.digitChar d) = d := by
  interval_cases d <;> rfl

theorem decode_natChars (n : Nat) :
    ∀ a : Nat, (natChars n).foldl (fun acc c => 10 * acc + decodeDigit c) a =
      a * 10 ^ (natChars n).length + n := by
  induction n using Nat.strong_induction_on with
  | _ n ih =>
    intro a
    by_cases h10 : n < 10
    · rw [natChars, if_pos h10]
      simp [List.foldl, decodeDigit_digitChar h10]
      ring
    · rw [natChars, if_neg h10]
      have hlt : n / 10 < n := Nat.div_lt_self (by omega) (by omega)
      rw [List.foldl_append]
      rw [ih (n / 10) hlt a]
      simp only [List.foldl]
      rw [decodeDigit_digitChar (Nat.mod_lt n (by omega))]
      rw [List.length_append]
      simp only [List.length]
      have : 10 * (a * 10 ^ (natChars (n / 10)).length + n / 10) + n % 10 =
          a * (10 ^ (natChars (n / 10)).length * 10) + (10 * (n / 10) + n % 10) := by ring
      rw [this, Nat.div_add_mod]
      rw [pow_succ]

theorem natChars_injective : Function.Injective natChars := by
  intro m n h
  have hm := decode_natChars m 0
  have hn := decode_natChars n 0
  rw [h] at hm
  omega

theorem repr_injective : Function.Injective Nat.repr := by
  intro m n h
  apply natChars_injective
  have : (Nat.toDigits 10 m).asString = (Nat.toDigits 10 n).asString := h
  rw [toDigits_eq_natChars, toDigits_eq_natChars] at this
  have hdata := congrArg String.data this
  simpa [List.asString] using hdata

theorem string_data_append (s t : String) : (s ++ t).data = s.data ++ t.data := by
  cases s; cases t; rfl

/-! ### Filesystem and error model

Audio file content is the window `[start, stop)` (in milliseconds) the
file holds of the original recording; text file content is a string;
directories are a list of names.  `PyErr` models the Python exceptions
the orchestrator's `try` block can see: `FileNotFoundError` (missing
input or chunk file at `open`/`os.remove`), a failed service call, and
`OSError` from `os.rmdir` on a non-empty/missing directory. -/

inductive PyErr where
  | fileNotFound
  | serviceError
  | osError
deriving DecidableEq

structure FS where
  audioFiles : List (String × (Nat × Nat))
  textFiles : List (String × String)
  dirs : List String
deriving DecidableEq

def FS.getAudio (fs : FS) (p : String) : Option (Nat × Nat) := alookup fs.audioFiles p

def FS.getText (fs : FS) (p : String) : Option String := alookup fs.textFiles p

def FS.writeAudio (fs : FS) (p : String) (w : Nat × Nat) : FS :=
  { fs with audioFiles := aset fs.audioFiles p w }

/-- `open(p, 'w')` followed by writing `s`: truncate-or-create. -/
def FS.writeText (fs : FS) (p : String) (s : String) : FS :=
  { fs with textFiles := aset fs.textFiles p s }

/-- `open(p, 'a')` followed by writing `s`: append-or-create. -/
def FS.appendText (fs : FS) (p : String) (s : String) : FS :=
  fs.writeText p (((fs.getText p).getD "") ++ s)

/-- `os.remove`: fails (`FileNotFoundError`) when the path names no file. -/
def FS.removeFile (fs : FS) (p : String) : Option FS :=
  if (alookup fs.audioFiles p).isSome then
    some { fs with audioFiles := aremove fs.audioFiles p }
  else if (alookup fs.textFiles p).isSome then
    some { fs with textFiles := aremove fs.textFiles p }
  else none

/-- `Path(d).mkdir(exist_ok=True)`. -/
def FS.mkdir (fs : FS) (d : String) : FS :=
  if d ∈ fs.dirs then fs else { fs with dirs := fs.dirs ++ [d] }

/-- Does any file live under directory `d` (path begins with `d ++ "/"`)? -/
def FS.hasFileIn (fs : FS) (d : String) : Bool :=
  fs.audioFiles.any (fun kv => listPre (d ++ "/").data kv.1.data) ||
    fs.textFiles.any (fun kv => listPre (d ++ "/").data kv.1.data)

/-- `os.rmdir`: fails (`OSError`) when the directory is absent or non-empty. -/
def FS.rmdir (fs : FS) (d : String) : Option FS :=
  if d ∈ fs.dirs ∧ fs.hasFileIn d = false then
    some { fs with dirs := fs.dirs.filter (fun x => x != d) }
  else none

/-! ### The Segmenter (`split_audio`, main.py lines 21–65) -/

def tempDirName : String := "temp_audio_segments"

/-- The path of the `i`-th exported chunk: `temp_audio_segments/segment_<i>.mp3`. -/
def segPath (i : Nat) : String := tempDirName ++ "/segment_" ++ Nat.repr i ++ ".mp3"

/-- Does a path lie inside the temporary chunk directory? -/
def inTempDir (p : String) : Bool := listPre (tempDirName ++ "/").data p.data

/-- `os.path.basename`: the final path component. -/
def basename (p : String) : String :=
  List.asString ((p.data.reverse.takeWhile (fun c => c != '/')).reverse)

/-- `audio[start_ms:end_ms]` — pydub slicing of an audio value, clamped to its length. -/
def audioSlice (w : Nat × Nat) (s e : Nat) : Nat × Nat :=
  (w.1 + min s (w.2 - w.1), w.1 + min e (w.2 - w.1))

/-- `num_segments = math.ceil(total_duration / max_duration)` with
`total_duration = len(audio) / 1000`, evaluated in exact integer
arithmetic as a natural ceiling division; `num_segments_eq_ceil` below
proves it equal to the rational ceiling of the source's expression. -/
def num_segments (len_ms max_duration : Nat) : Nat :=
  (len_ms + 1000 * max_duration - 1) / (1000 * max_duration)

/-- The `i`-th time window of the split:
`start_ms = i * max_duration * 1000`, `end_ms = min((i+1) * max_duration * 1000, len(audio))`. -/
def chunk_window (len_ms max_duration i : Nat) : Nat × Nat :=
  (i * max_duration * 1000, min ((i + 1) * max_duration * 1000) len_ms)

/-- All windows of the split, in ascending ordinal order. -/
def chunk_windows (len_ms max_duration : Nat) : List (Nat × Nat) :=
  (List.range (num_segments len_ms max_duration)).map (chunk_window len_ms max_duration)

/-- The export loop of `split_audio` (`for i in range(num_segments)`),
written as recursion on the number `m` of remaining iterations, starting
at index `i`: exports `audio[start_ms:end_ms]` to `segPath i` and
collects the chunk paths in order. -/
def export_segments (w : Nat × Nat) (len_ms max_duration : Nat) :
    Nat → Nat → FS → FS × List String
  | _, 0, fs => (fs, [])
  | i, m + 1, fs =>
    let start_ms := i * max_duration * 1000
    let end_ms := min ((i + 1) * max_duration * 1000) len_ms
    let fs1 := fs.writeAudio (segPath i) (audioSlice w start_ms end_ms)
    let r := export_segments w len_ms max_duration (i + 1) m fs1
    (r.1, segPath i :: r.2)

/-- `split_audio(audio_file_path, max_duration)`: decode the audio (its
length in ms), compute `num_segments`; if `num_segments <= 1` return the
original path with no filesystem effect, otherwise create the temporary
directory and export one chunk file per window. -/
def split_audio (fs : FS) (audio_file_path : String) (max_duration : Nat) :
    FS × Except PyErr (List String) :=
  match fs.getAudio audio_file_path with
  | none => (fs, Except.error PyErr.fileNotFound)
  | some w =>
    let total_len_ms := w.2 - w.1
    let n := num_segments total_len_ms max_duration
    if n ≤ 1 then (fs, Except.ok [audio_file_path])
    else
      let fs1 := fs.mkdir tempDirName
      let r := export_segments w total_len_ms max_duration 0 n fs1
      (r.1, Except.ok r.2)

/-! ### The Orchestrator (`transcribe_with_models`, main.py lines 67–155) -/

/-- The header block written once with mode `'w'` (lines 103–110),
including the model banner line. -/
def headerText (audio_file_path now : String) : String :=
  "# 文字起こし結果\n" ++ "# 元ファイル: " ++ basename audio_file_path ++ "\n" ++
    "# 日時: " ++ now ++ "\n" ++ "# モデル: gpt-4o-transcribe\n\n" ++
    "\n===== gpt-4o-transcribe =====\n\n"

/-- The separator written before every segment body except the first. -/
def segSep : String := "\n--- セグメント区切り ---\n\n"

/-- `generate_output_filename()`: creates the `transcripts` directory and
returns a timestamped path inside it. -/
def generate_output_filename (now : String) (fs : FS) : FS × String :=
  (fs.mkdir "transcripts", "transcripts/transcript_" ++ now ++ ".txt")

/-- The per-chunk loop (lines 115–134): open the chunk (raises
`FileNotFoundError` if gone), submit its audio to the service (the
submitted window is traced in `calls`; `none` from the oracle is a
service failure), then append the text to the output file, preceded by
the separator when `i > 0`.  The first error aborts the loop. -/
def transcribe_loop (oracle : Nat × Nat → Option String) (output_file : String) :
    List String → Nat → FS → List (Nat × Nat) → FS × List (Nat × Nat) × Option PyErr
  | [], _, fs, calls => (fs, calls, none)
  | p :: rest, i, fs, calls =>
    match fs.getAudio p with
    | none => (fs, calls, some PyErr.fileNotFound)
    | some w =>
      match oracle w with
      | none => (fs, calls ++ [w], some PyErr.serviceError)
      | some text =>
        let fs1 := fs.appendText output_file
          ((if 0 < i then segSep else "") ++ text ++ "\n")
        transcribe_loop oracle output_file rest (i + 1) fs1 (calls ++ [w])

/-- The deletion loop of the cleanup (lines 139–141): `os.remove(path)`
for every chunk path other than the original; a missing file raises
`FileNotFoundError`, aborting the loop. -/
def cleanup_segments (audio_file_path : String) : List String → FS → FS × Option PyErr
  | [], fs => (fs, none)
  | p :: rest, fs =>
    if p = audio_file_path then cleanup_segments audio_file_path rest fs
    else
      match fs.removeFile p with
      | none => (fs, some PyErr.fileNotFound)
      | some fs1 => cleanup_segments audio_file_path rest fs1

/-- The cleanup step (lines 136–142): only when more than one chunk
exists, delete the chunk files then `os.rmdir` the temporary directory. -/
def cleanup_phase (segment_paths : List String) (audio_file_path : String) (fs : FS) :
    FS × Option PyErr :=
  if 1 < segment_paths.length then
    match cleanup_segments audio_file_path segment_paths fs with
    | (fs1, some e) => (fs1, some e)
    | (fs1, none) =>
      match fs1.rmdir tempDirName with
      | none => (fs1, some PyErr.osError)
      | some fs2 => (fs2, none)
  else (fs, none)

/-- The outcome of one run: the exit code (`0` success, `1` failure), the
final filesystem, and the trace of windows submitted to the service. -/
structure RunOut where
  exit : Nat
  fs : FS
  calls : List (Nat × Nat)
deriving DecidableEq

/-- The tail of the `try` block after the loop succeeded: run the cleanup;
any exception it raises is caught by the handlers (lines 148–153) and
turned into exit code 1, else the run returns 0. -/
def finish_phase (segment_paths : List String) (audio_file_path : String) (fs : FS)
    (calls : List (Nat × Nat)) : RunOut :=
  match cleanup_phase segment_paths audio_file_path fs with
  | (fs1, some _) => ⟨1, fs1, calls⟩
  | (fs1, none) => ⟨0, fs1, calls⟩

/-- `transcribe_with_models(audio_file_path, output_file, max_duration)`:
check the API key (absence returns 1 before anything else), resolve the
output path (auto-generation creates the `transcripts` directory), then
inside `try`: split, write the header with mode `'w'`, transcribe each
chunk in order, and clean up.  Every `PyErr` raised inside the `try` is
caught and mapped to exit code 1, keeping the filesystem as the failing
step left it. -/
def transcribe_with_models (env_api_key : Bool) (now : String)
    (oracle : Nat × Nat → Option String) (fs : FS) (audio_file_path : String)
    (output_file : Option String) (max_duration : Nat) : RunOut :=
  if !env_api_key then ⟨1, fs, []⟩
  else
    let resolved : FS × String :=
      match output_file with
      | some p => (fs, p)
      | none =>
        let r := generate_output_filename now fs
        (r.1, r.2)
    match split_audio resolved.1 audio_file_path max_duration with
    | (fs1, Except.error _) => ⟨1, fs1, []⟩
    | (fs1, Except.ok segment_paths) =>
      let fs2 := fs1.writeText resolved.2 (headerText audio_file_path now)
      match transcribe_loop oracle resolved.2 segment_paths 0 fs2 [] with
      | (fs3, calls, some _) => ⟨1, fs3, calls⟩
      | (fs3, calls, none) => finish_phase segment_paths audio_file_path fs3 calls

/-- The spec's transcript-document shape: the bodies in ordinal order
(numbered from `i`), each body after the first preceded by the separator
and followed by a newline. -/
def renderBodies : Nat → List String → String
  | _, [] => ""
  | i, t :: rest => (if 0 < i then segSep else "") ++ t ++ "\n" ++ renderBodies (i + 1) rest

/-! ### Arithmetic of the ceiling division `num_segments` -/

theorem ceilDiv_mul_ge (len M : Nat) (hM : 0 < M) : len ≤ (len + M - 1) / M * M := by
  have e := Nat.div_add_mod (len + M - 1) M
  have hr : (len + M - 1) % M < M := Nat.mod_lt _ hM
  have hc : (len + M - 1) / M * M = M * ((len + M - 1) / M) := Nat.mul_comm _ _
  omega

theorem ceilDiv_pos (len M : Nat) (hM : 0 < M) (hlen : 0 < len) :
    0 < (len + M - 1) / M := by
  apply Nat.div_pos <;> omega

theorem ceilDiv_pred_mul_lt (len M : Nat) (hM : 0 < M) (hlen : 0 < len) :
    ((len + M - 1) / M - 1) * M < len := by
  have hpos := ceilDiv_pos len M hM hlen
  have hsub : ((len + M - 1) / M - 1) * M = (len + M - 1) / M * M - M := by
    rw [Nat.sub_mul, Nat.one_mul]
  have e := Nat.div_add_mod (len + M - 1) M
  have hr : (len + M - 1) % M < M := Nat.mod_lt _ hM
  have hc : (len + M - 1) / M * M = M * ((len + M - 1) / M) := Nat.mul_comm _ _
  omega

theorem ceilDiv_eq_ceil (len M : Nat) (hM : 0 < M) :
    (len + M - 1) / M = ⌈(len : ℚ) / (M : ℚ)⌉₊ := by
  have hMQ : (0 : ℚ) < (M : ℚ) := by exact_mod_cast hM
  rcases Nat.eq_zero_or_pos len with h0 | hlen
  · subst h0
    simp [Nat.div_eq_of_lt (by omega : M - 1 < M)]
  · apply le_antisymm
    · have h1 : (((len + M - 1) / M : Nat) - 1 : ℚ) < (len : ℚ) / (M : ℚ) := by
        rw [lt_div_iff₀ hMQ]
        have hlt := ceilDiv_pred_mul_lt len M hM hlen
        have hpos := ceilDiv_pos len M hM hlen
        calc (((len + M - 1) / M : Nat) - 1 : ℚ) * (M : ℚ)
            = (((len + M - 1) / M - 1 : Nat) : ℚ) * (M : ℚ) := by
              rw [Nat.cast_sub hpos]; push_cast; ring
          _ < (len : ℚ) := by exact_mod_cast hlt
      have hpos := ceilDiv_pos len M hM hlen
      have h2 : (((len + M - 1) / M : Nat) - 1 : ℚ) <
          (⌈(len : ℚ) / (M : ℚ)⌉₊ : ℚ) := lt_of_lt_of_le h1 (Nat.le_ceil _)
      have h3 : (((len + M - 1) / M - 1 : Nat) : ℚ) < (⌈(len : ℚ) / (M : ℚ)⌉₊ : ℚ) := by
        rw [Nat.cast_sub hpos]; push_cast; linarith
      have h4 := Nat.cast_lt.mp h3
      omega
    · rw [Nat.ceil_le, div_le_iff₀ hMQ]
      exact_mod_cast ceilDiv_mul_ge len M hM

theorem ceilDiv_le_one_iff (len M : Nat) (hM : 0 < M) :
    (len + M - 1) / M ≤ 1 ↔ len ≤ M := by
  have h2 : ((len + M - 1) / M < 2) ↔ (len + M - 1 < 2 * M) :=
    Nat.div_lt_iff_lt_mul hM
  omega

/-- The source computes `math.ceil((len(audio)/1000)/max_duration)`; in
exact arithmetic this is the natural ceiling division `num_segments`. -/
theorem num_segments_eq_ceil (len_ms max_duration : Nat) (hM : 0 < max_duration) :
    num_segments len_ms max_duration =
      ⌈((len_ms : ℚ) / 1000) / (max_duration : ℚ)⌉₊ := by
  rw [num_segments, ceilDiv_eq_ceil len_ms (1000 * max_duration) (by omega), div_div]
  push_cast
  rfl

theorem num_segments_le_one_iff (len_ms max_duration : Nat) (hM : 0 < max_duration) :
    num_segments len_ms max_duration ≤ 1 ↔ len_ms ≤ 1000 * max_duration := by
  exact ceilDiv_le_one_iff len_ms (1000 * max_duration) (by omega)

theorem one_lt_num_segments_iff (len_ms max_duration : Nat) (hM : 0 < max_duration) :
    1 < num_segments len_ms max_duration ↔ 1000 * max_duration < len_ms := by
  have h := num_segments_le_one_iff len_ms max_duration hM
  omega

theorem len_le_num_segments_mul (len_ms max_duration : Nat) (hM : 0 < max_duration) :
    len_ms ≤ num_segments len_ms max_duration * (1000 * max_duration) :=
  ceilDiv_mul_ge len_ms (1000 * max_duration) (by omega)

theorem num_segments_pred_mul_lt (len_ms max_duration : Nat) (hM : 0 < max_duration)
    (hlen : 0 < len_ms) :
    (num_segments len_ms max_duration - 1) * (1000 * max_duration) < len_ms :=
  ceilDiv_pred_mul_lt len_ms (1000 * max_duration) (by omega) hlen

theorem num_segments_pos (len_ms max_duration : Nat) (hM : 0 < max_duration)
    (hlen : 0 < len_ms) : 0 < num_segments len_ms max_duration :=
  ceilDiv_pos len_ms (1000 * max_duration) (by omega) hlen

/-! ### Geometry of the chunk windows -/

theorem chunk_window_start_eq (len_ms max_duration i : Nat) :
    (chunk_window len_ms max_duration i).1 = i * (1000 * max_duration) := by
  show i * max_duration * 1000 = i * (1000 * max_duration)
  ring

theorem chunk_window_stop_eq (len_ms max_duration i : Nat) :
    (chunk_window len_ms max_duration i).2 = min ((i + 1) * (1000 * max_duration)) len_ms := by
  show min ((i + 1) * max_duration * 1000) len_ms = min ((i + 1) * (1000 * max_duration)) len_ms
  have h : (i + 1) * max_duration * 1000 = (i + 1) * (1000 * max_duration) := by ring
  rw [h]

theorem chunk_window_start_lt_len (len_ms max_duration i : Nat) (hM : 0 < max_duration)
    (hlen : 0 < len_ms) (hi : i < num_segments len_ms max_duration) :
    (chunk_window len_ms max_duration i).1 < len_ms := by
  rw [chunk_window_start_eq]
  have h1 := num_segments_pred_mul_lt len_ms max_duration hM hlen
  have h2 : i * (1000 * max_duration) ≤
      (num_segments len_ms max_duration - 1) * (1000 * max_duration) :=
    Nat.mul_le_mul_right _ (by omega)
  omega

/-- Every window's duration is at most `max_duration` seconds (in ms). -/
theorem chunk_window_duration_le (len_ms max_duration i : Nat) :
    (chunk_window len_ms max_duration i).2 - (chunk_window len_ms max_duration i).1 ≤
      1000 * max_duration := by
  rw [chunk_window_start_eq, chunk_window_stop_eq]
  have h : min ((i + 1) * (1000 * max_duration)) len_ms ≤ (i + 1) * (1000 * max_duration) :=
    Nat.min_le_left _ _
  have hs : (i + 1) * (1000 * max_duration) = i * (1000 * max_duration) + 1000 * max_duration :=
    Nat.succ_mul _ _
  omega

/-- Every in-range window is non-empty (no trailing zero-length window). -/
theorem chunk_window_duration_pos (len_ms max_duration i : Nat) (hM : 0 < max_duration)
    (hlen : 0 < len_ms) (hi : i < num_segments len_ms max_duration) :
    (chunk_window len_ms max_duration i).1 < (chunk_window len_ms max_duration i).2 := by
  rw [chunk_window_start_eq, chunk_window_stop_eq]
  have h1 := chunk_window_start_lt_len len_ms max_duration i hM hlen hi
  rw [chunk_window_start_eq] at h1
  have hs : (i + 1) * (1000 * max_duration) = i * (1000 * max_duration) + 1000 * max_duration :=
    Nat.succ_mul _ _
  have : 0 < 1000 * max_duration := by omega
  omega

/-- Consecutive windows are contiguous: window `i` stops where window
`i+1` starts. -/
theorem chunk_window_contiguous (len_ms max_duration i : Nat) (hM : 0 < max_duration)
    (hlen : 0 < len_ms) (hi : i + 1 < num_segments len_ms max_duration) :
    (chunk_window len_ms max_duration i).2 = (chunk_window len_ms max_duration (i + 1)).1 := by
  rw [chunk_window_stop_eq, chunk_window_start_eq]
  have h1 := num_segments_pred_mul_lt len_ms max_duration hM hlen
  have h2 : (i + 1) * (1000 * max_duration) ≤
      (num_segments len_ms max_duration - 1) * (1000 * max_duration) :=
    Nat.mul_le_mul_right _ (by omega)
  omega

/-- The final window's stop bound is clamped to exactly the total length. -/
theorem chunk_window_last_stop (len_ms max_duration : Nat) (hM : 0 < max_duration)
    (hlen : 0 < len_ms) :
    (chunk_window len_ms max_duration (num_segments len_ms max_duration - 1)).2 = len_ms := by
  rw [chunk_window_stop_eq]
  have hpos := num_segments_pos len_ms max_duration hM hlen
  have h1 := len_le_num_segments_mul len_ms max_duration hM
  have h2 : (num_segments len_ms max_duration - 1 + 1) * (1000 * max_duration) =
      num_segments len_ms max_duration * (1000 * max_duration) := by
    congr 1
    omega
  omega

theorem chunk_window_first_start (len_ms max_duration : Nat) :
    (chunk_window len_ms max_duration 0).1 = 0 := by
  rw [chunk_window_start_eq, Nat.zero_mul]

theorem durSum_full (len_ms max_duration k : Nat)
    (hk : k * (1000 * max_duration) ≤ len_ms) :
    ((List.range k).map (fun i =>
        (chunk_window len_ms max_duration i).2 - (chunk_window len_ms max_duration i).1)).sum =
      k * (1000 * max_duration) := by
  induction k with
  | zero => simp
  | succ k ih =>
    have hsucc : (k + 1) * (1000 * max_duration) =
        k * (1000 * max_duration) + 1000 * max_duration := Nat.succ_mul _ _
    have hk' : k * (1000 * max_duration) ≤ len_ms := by omega
    rw [List.range_succ, List.map_append, List.sum_append, ih hk']
    simp only [List.map_cons, List.map_nil, List.sum_cons, List.sum_nil]
    rw [chunk_window_start_eq, chunk_window_stop_eq]
    have hmin : min ((k + 1) * (1000 * max_duration)) len_ms =
        (k + 1) * (1000 * max_duration) := Nat.min_eq_left (by omega)
    omega

/-- The chunk durations sum exactly to the total duration. -/
theorem durSum_eq_len (len_ms max_duration : Nat) (hM : 0 < max_duration)
    (hlen : 0 < len_ms) :
    ((List.range (num_segments len_ms max_duration)).map (fun i =>
        (chunk_window len_ms max_duration i).2 - (chunk_window len_ms max_duration i).1)).sum =
      len_ms := by
  have hpos := num_segments_pos len_ms max_duration hM hlen
  obtain ⟨m, hm⟩ : ∃ m, num_segments len_ms max_duration = m + 1 :=
    ⟨num_segments len_ms max_duration - 1, by omega⟩
  rw [hm, List.range_succ, List.map_append, List.sum_append]
  have hmlt : m * (1000 * max_duration) < len_ms := by
    have := num_segments_pred_mul_lt len_ms max_duration hM hlen
    rw [hm] at this
    simpa using this
  rw [durSum_full len_ms max_duration m (by omega)]
  simp only [List.map_cons, List.map_nil, List.sum_cons, List.sum_nil]
  have hlast : (chunk_window len_ms max_duration m).2 = len_ms := by
    have := chunk_window_last_stop len_ms max_duration hM hlen
    rw [hm] at this
    simpa using this
  rw [hlast, chunk_window_start_eq]
  omega

/-! ### Distinctness of chunk paths -/

theorem string_data_inj {s t : String} (h : s.data = t.data) : s = t := by
  cases s
  cases t
  simp only at h
  rw [h]

theorem segPath_injective : Function.Injective segPath := by
  intro a b h
  apply repr_injective
  have hd := congrArg String.data h
  rw [segPath, segPath, string_data_append, string_data_append,
    string_data_append, string_data_append] at hd
  apply string_data_inj
  exact List.append_cancel_left (List.append_cancel_right hd)

theorem segPath_inTempDir (i : Nat) : inTempDir (segPath i) = true := by
  rw [inTempDir, segPath]
  have h : tempDirName ++ "/segment_" ++ Nat.repr i ++ ".mp3" =
      (tempDirName ++ "/") ++ ("segment_" ++ Nat.repr i ++ ".mp3") := by
    apply string_data_inj
    simp only [string_data_append, List.append_assoc]
    rfl
  rw [h, string_data_append]
  exact listPre_append_self _ _

/-! ### Small facts about the filesystem operations -/

theorem FS.getAudio_writeText (fs : FS) (p s q : String) :
    (fs.writeText p s).getAudio q = fs.getAudio q := rfl

theorem FS.getAudio_appendText (fs : FS) (p s q : String) :
    (fs.appendText p s).getAudio q = fs.getAudio q := rfl

theorem FS.audioFiles_writeText (fs : FS) (p s : String) :
    (fs.writeText p s).audioFiles = fs.audioFiles := rfl

theorem FS.audioFiles_appendText (fs : FS) (p s : String) :
    (fs.appendText p s).audioFiles = fs.audioFiles := rfl

theorem FS.dirs_writeText (fs : FS) (p s : String) :
    (fs.writeText p s).dirs = fs.dirs := rfl

theorem FS.dirs_appendText (fs : FS) (p s : String) :
    (fs.appendText p s).dirs = fs.dirs := rfl

theorem FS.dirs_writeAudio (fs : FS) (p : String) (w : Nat × Nat) :
    (fs.writeAudio p w).dirs = fs.dirs := rfl

theorem FS.textFiles_writeAudio (fs : FS) (p : String) (w : Nat × Nat) :
    (fs.writeAudio p w).textFiles = fs.textFiles := rfl

theorem FS.getText_writeText_self (fs : FS) (p s : String) :
    (fs.writeText p s).getText p = some s :=
  alookup_aset_self _ _ _

theorem FS.getText_writeText_ne (fs : FS) {p q : String} (s : String) (h : p ≠ q) :
    (fs.writeText p s).getText q = fs.getText q :=
  alookup_aset_ne _ _ h

theorem FS.getText_appendText_self (fs : FS) (p s : String) :
    (fs.appendText p s).getText p = some (((fs.getText p).getD "") ++ s) :=
  alookup_aset_self _ _ _

theorem FS.getText_appendText_ne (fs : FS) {p q : String} (s : String) (h : p ≠ q) :
    (fs.appendText p s).getText q = fs.getText q :=
  alookup_aset_ne _ _ h

theorem FS.getAudio_writeAudio_self (fs : FS) (p : String) (w : Nat × Nat) :
    (fs.writeAudio p w).getAudio p = some w :=
  alookup_aset_self _ _ _

theorem FS.getAudio_writeAudio_ne (fs : FS) {p q : String} (w : Nat × Nat) (h : p ≠ q) :
    (fs.writeAudio p w).getAudio q = fs.getAudio q :=
  alookup_aset_ne _ _ h

theorem FS.mkdir_audioFiles (fs : FS) (d : String) :
    (fs.mkdir d).audioFiles = fs.audioFiles := by
  rw [FS.mkdir]
  split <;> rfl

theorem FS.mkdir_textFiles (fs : FS) (d : String) :
    (fs.mkdir d).textFiles = fs.textFiles := by
  rw [FS.mkdir]
  split <;> rfl

theorem FS.mem_mkdir_dirs (fs : FS) (d : String) : d ∈ (fs.mkdir d).dirs := by
  rw [FS.mkdir]
  split
  · assumption
  · simp

theorem FS.mkdir_dirs_filter_out (fs : FS) (d : String) :
    (fs.mkdir d).dirs.filter (fun x => x != d) = fs.dirs.filter (fun x => x != d) := by
  rw [FS.mkdir]
  split
  · rfl
  · simp

theorem mem_filter_out {l : List String} {d y : String} :
    y ∈ l.filter (fun x => x != d) ↔ y ∈ l ∧ y ≠ d := by
  simp [List.mem_filter]

/-! ### Characterization of the Segmenter -/

theorem export_segments_paths (w : Nat × Nat) (len_ms max_duration : Nat) :
    ∀ (m i : Nat) (fs : FS),
      (export_segments w len_ms max_duration i m fs).2 = (List.range' i m).map segPath := by
  intro m
  induction m with
  | zero => intro i fs; rfl
  | succ m ih =>
    intro i fs
    rw [export_segments, List.range'_succ, List.map_cons]
    rw [ih]

theorem export_segments_textFiles (w : Nat × Nat) (len_ms max_duration : Nat) :
    ∀ (m i : Nat) (fs : FS),
      (export_segments w len_ms max_duration i m fs).1.textFiles = fs.textFiles := by
  intro m
  induction m with
  | zero => intro i fs; rfl
  | succ m ih =>
    intro i fs
    rw [export_segments]
    exact ih (i + 1) _

theorem export_segments_dirs (w : Nat × Nat) (len_ms max_duration : Nat) :
    ∀ (m i : Nat) (fs : FS),
      (export_segments w len_ms max_duration i m fs).1.dirs = fs.dirs := by
  intro m
  induction m with
  | zero => intro i fs; rfl
  | succ m ih =>
    intro i fs
    rw [export_segments]
    exact ih (i + 1) _

theorem export_segments_getAudio_other (w : Nat × Nat) (len_ms max_duration : Nat) :
    ∀ (m i : Nat) (fs : FS) (q : String), (∀ j, i ≤ j → j < i + m → q ≠ segPath j) →
      (export_segments w len_ms max_duration i m fs).1.getAudio q = fs.getAudio q := by
  intro m
  induction m with
  | zero => intro i fs q _; rfl
  | succ m ih =>
    intro i fs q hq
    rw [export_segments]
    rw [ih (i + 1) _ q (fun j h1 h2 => hq j (by omega) (by omega))]
    exact FS.getAudio_writeAudio_ne fs _ (fun h => hq i (le_refl i) (by omega) h.symm)

theorem export_segments_getAudio_seg (w : Nat × Nat) (len_ms max_duration : Nat) :
    ∀ (m i : Nat) (fs : FS) (j : Nat), i ≤ j → j < i + m →
      (export_segments w len_ms max_duration i m fs).1.getAudio (segPath j) =
        some (audioSlice w (j * max_duration * 1000)
          (min ((j + 1) * max_duration * 1000) len_ms)) := by
  intro m
  induction m with
  | zero => intro i fs j h1 h2; omega
  | succ m ih =>
    intro i fs j h1 h2
    rw [export_segments]
    rcases Nat.eq_or_lt_of_le h1 with heq | hlt
    · subst heq
      rw [export_segments_getAudio_other w len_ms max_duration m (i + 1) _ (segPath i)
        (fun j' hj1 hj2 hj3 => by
          have := segPath_injective hj3
          omega)]
      exact FS.getAudio_writeAudio_self fs _ _
    · exact ih (i + 1) _ j hlt (by omega)

theorem export_segments_mem_audio (w : Nat × Nat) (len_ms max_duration : Nat) :
    ∀ (m i : Nat) (fs : FS) (kv : String × (Nat × Nat)),
      kv ∈ (export_segments w len_ms max_duration i m fs).1.audioFiles →
      kv ∈ fs.audioFiles ∨ ∃ j, i ≤ j ∧ j < i + m ∧ kv.1 = segPath j := by
  intro m
  induction m with
  | zero => intro i fs kv h; exact Or.inl h
  | succ m ih =>
    intro i fs kv h
    rw [export_segments] at h
    rcases ih (i + 1) _ kv h with h1 | ⟨j, hj1, hj2, hj3⟩
    · rcases mem_aset h1 with h2 | h2
      · exact Or.inl h2
      · exact Or.inr ⟨i, le_refl i, by omega, by rw [h2]⟩
    · exact Or.inr ⟨j, by omega, by omega, hj3⟩

theorem split_audio_single (fs : FS) (audio_file_path : String) (max_duration : Nat)
    {w : Nat × Nat} (hw : fs.getAudio audio_file_path = some w)
    (h1 : num_segments (w.2 - w.1) max_duration ≤ 1) :
    split_audio fs audio_file_path max_duration = (fs, Except.ok [audio_file_path]) := by
  rw [split_audio, hw]
  simp only [if_pos h1]

theorem split_audio_multi (fs : FS) (audio_file_path : String) (max_duration : Nat)
    {w : Nat × Nat} (hw : fs.getAudio audio_file_path = some w)
    (h1 : 1 < num_segments (w.2 - w.1) max_duration) :
    split_audio fs audio_file_path max_duration =
      ((export_segments w (w.2 - w.1) max_duration 0
          (num_segments (w.2 - w.1) max_duration) (fs.mkdir tempDirName)).1,
        Except.ok ((List.range' 0 (num_segments (w.2 - w.1) max_duration)).map segPath)) := by
  rw [split_audio, hw]
  simp only [if_neg (by omega : ¬num_segments (w.2 - w.1) max_duration ≤ 1)]
  rw [export_segments_paths]

/-! ### String append facts -/

theorem string_append_empty (a : String) : a ++ "" = a := by
  apply string_data_inj
  rw [string_data_append]
  exact List.append_nil _

theorem string_append_assoc (a b c : String) : a ++ b ++ c = a ++ (b ++ c) := by
  apply string_data_inj
  simp [string_data_append, List.append_assoc]

/-! ### Characterization of the transcription loop -/

theorem transcribe_loop_success (oracle : Nat × Nat → Option String) (out : String)
    (wf : Nat → Nat × Nat) (tf : Nat → String) :
    ∀ (ps : List String) (i : Nat) (fs : FS) (calls : List (Nat × Nat)) (cur : String),
      fs.getText out = some cur →
      (∀ k (hk : k < ps.length), fs.getAudio (ps.get ⟨k, hk⟩) = some (wf (i + k))) →
      (∀ k, k < ps.length → oracle (wf (i + k)) = some (tf (i + k))) →
      (transcribe_loop oracle out ps i fs calls).2.2 = none ∧
      (transcribe_loop oracle out ps i fs calls).2.1 =
        calls ++ (List.range' i ps.length).map wf ∧
      (transcribe_loop oracle out ps i fs calls).1.audioFiles = fs.audioFiles ∧
      (transcribe_loop oracle out ps i fs calls).1.dirs = fs.dirs ∧
      (transcribe_loop oracle out ps i fs calls).1.getText out =
        some (cur ++ renderBodies i ((List.range' i ps.length).map tf)) ∧
      (∀ q, q ≠ out → (transcribe_loop oracle out ps i fs calls).1.getText q = fs.getText q) ∧
      (∀ kv, kv ∈ (transcribe_loop oracle out ps i fs calls).1.textFiles →
        kv ∈ fs.textFiles ∨ kv.1 = out) := by
  intro ps
  induction ps with
  | nil =>
    intro i fs calls cur hcur _ _
    refine ⟨rfl, by simp [transcribe_loop], rfl, rfl, ?_, fun q _ => rfl, fun kv h => Or.inl h⟩
    simp [transcribe_loop, hcur, renderBodies, string_append_empty]
  | cons p rest ih =>
    intro i fs calls cur hcur hpres horc
    have hp : fs.getAudio p = some (wf i) := by
      have := hpres 0 (by simp)
      simpa using this
    have ho : oracle (wf i) = some (tf i) := by
      have := horc 0 (by simp)
      simpa using this
    simp only [transcribe_loop, hp, ho]
    set s1 := (if 0 < i then segSep else "") ++ tf i ++ "\n" with hs1
    set fs1 := fs.appendText out s1 with hfs1
    have hcur1 : fs1.getText out = some (cur ++ s1) := by
      rw [hfs1, FS.getText_appendText_self, hcur]
      rfl
    have hpres1 : ∀ k (hk : k < rest.length),
        fs1.getAudio (rest.get ⟨k, hk⟩) = some (wf (i + 1 + k)) := by
      intro k hk
      rw [hfs1, FS.getAudio_appendText]
      have := hpres (k + 1) (by simpa using Nat.succ_lt_succ hk)
      have harith : i + (k + 1) = i + 1 + k := by omega
      rw [harith] at this
      exact this
    have horc1 : ∀ k, k < rest.length → oracle (wf (i + 1 + k)) = some (tf (i + 1 + k)) := by
      intro k hk
      have := horc (k + 1) (by simp only [List.length_cons]; omega)
      have harith : i + (k + 1) = i + 1 + k := by omega
      rw [harith] at this
      exact this
    obtain ⟨he, hcalls, haud, hdirs, htext, hother, hmem⟩ :=
      ih (i + 1) fs1 (calls ++ [wf i]) (cur ++ s1) hcur1 hpres1 horc1
    refine ⟨he, ?_, ?_, ?_, ?_, ?_, ?_⟩
    · rw [hcalls, List.length_cons, List.range'_succ, List.map_cons]
      simp
    · rw [haud, hfs1, FS.audioFiles_appendText]
    · rw [hdirs, hfs1, FS.dirs_appendText]
    · rw [htext, List.length_cons, List.range'_succ, List.map_cons, renderBodies]
      congr 1
      rw [hs1]
      apply string_data_inj
      simp [string_data_append, List.append_assoc]
    · intro q hq
      rw [hother q hq, hfs1, FS.getText_appendText_ne fs _ (fun h => hq h.symm)]
    · intro kv hkv
      rcases hmem kv hkv with h | h
      · rw [hfs1] at h
        rcases mem_aset h with h2 | h2
        · exact Or.inl h2
        · right
          rw [h2]
      · exact Or.inr h

theorem transcribe_loop_fail (oracle : Nat × Nat → Option String) (out : String)
    (wf : Nat → Nat × Nat) (tf : Nat → String) :
    ∀ (ps : List String) (k i : Nat) (fs : FS) (calls : List (Nat × Nat)) (cur : String),
      fs.getText out = some cur →
      (∀ j (hj : j < ps.length), fs.getAudio (ps.get ⟨j, hj⟩) = some (wf (i + j))) →
      (∀ j, j < k → oracle (wf (i + j)) = some (tf (i + j))) →
      oracle (wf (i + k)) = none →
      k < ps.length →
      (transcribe_loop oracle out ps i fs calls).2.2 = some PyErr.serviceError ∧
      (transcribe_loop oracle out ps i fs calls).2.1 =
        calls ++ (List.range' i (k + 1)).map wf ∧
      (transcribe_loop oracle out ps i fs calls).1.audioFiles = fs.audioFiles ∧
      (transcribe_loop oracle out ps i fs calls).1.dirs = fs.dirs ∧
      (transcribe_loop oracle out ps i fs calls).1.getText out =
        some (cur ++ renderBodies i ((List.range' i k).map tf)) ∧
      (∀ q, q ≠ out → (transcribe_loop oracle out ps i fs calls).1.getText q = fs.getText q) := by
  intro ps
  induction ps with
  | nil =>
    intro k i fs calls cur _ _ _ _ hk
    exact absurd hk (by simp)
  | cons p rest ih =>
    intro k i fs calls cur hcur hpres horc hfail hk
    have hp : fs.getAudio p = some (wf i) := by
      have := hpres 0 (by simp)
      simpa using this
    rcases Nat.eq_zero_or_pos k with hk0 | hkpos
    · subst hk0
      have hof : oracle (wf i) = none := by simpa using hfail
      simp only [transcribe_loop, hp, hof]
      refine ⟨by trivial, ?_, by trivial, by trivial, ?_,
        by intros; trivial⟩
      · simp [List.range'_one]
      · simp [hcur, renderBodies, string_append_empty]
    · obtain ⟨k', rfl⟩ : ∃ k', k = k' + 1 := ⟨k - 1, by omega⟩
      have ho : oracle (wf i) = some (tf i) := by
        have := horc 0 (by omega)
        simpa using this
      simp only [transcribe_loop, hp, ho]
      set s1 := (if 0 < i then segSep else "") ++ tf i ++ "\n" with hs1
      set fs1 := fs.appendText out s1 with hfs1
      have hcur1 : fs1.getText out = some (cur ++ s1) := by
        rw [hfs1, FS.getText_appendText_self, hcur]
        rfl
      have hpres1 : ∀ j (hj : j < rest.length),
          fs1.getAudio (rest.get ⟨j, hj⟩) = some (wf (i + 1 + j)) := by
        intro j hj
        rw [hfs1, FS.getAudio_appendText]
        have := hpres (j + 1) (by simpa using Nat.succ_lt_succ hj)
        have harith : i + (j + 1) = i + 1 + j := by omega
        rw [harith] at this
        exact this
      have horc1 : ∀ j, j < k' → oracle (wf (i + 1 + j)) = some (tf (i + 1 + j)) := by
        intro j hj
        have := horc (j + 1) (by omega)
        have harith : i + (j + 1) = i + 1 + j := by omega
        rw [harith] at this
        exact this
      have hfail1 : oracle (wf (i + 1 + k')) = none := by
        have harith : i + (k' + 1) = i + 1 + k' := by omega
        rw [harith] at hfail
        exact hfail
      have hk' : k' < rest.length := by
        have hlen : (p :: rest).length = rest.length + 1 := by simp
        omega
      obtain ⟨he, hcalls, haud, hdirs, htext, hother⟩ :=
        ih k' (i + 1) fs1 (calls ++ [wf i]) (cur ++ s1) hcur1 hpres1 horc1 hfail1 hk'
      refine ⟨he, ?_, ?_, ?_, ?_, ?_⟩
      · rw [hcalls]
        simp [List.range'_succ]
      · rw [haud, hfs1, FS.audioFiles_appendText]
      · rw [hdirs, hfs1, FS.dirs_appendText]
      · rw [htext, List.range'_succ, List.map_cons, renderBodies]
        congr 1
        rw [hs1]
        apply string_data_inj
        simp [string_data_append, List.append_assoc]
      · intro q hq
        rw [hother q hq, hfs1, FS.getText_appendText_ne fs _ (fun h => hq h.symm)]


/-! ### Characterization of the cleanup -/

theorem alookup_some_mem {α : Type} {l : List (String × α)} {q : String} {v : α}
    (h : alookup l q = some v) : (q, v) ∈ l := by
  induction l with
  | nil => simp [alookup] at h
  | cons kv rest ih =>
    obtain ⟨k, w⟩ := kv
    by_cases hk : k = q
    · rw [alookup, if_pos hk] at h
      subst hk
      simp only [Option.some.injEq] at h
      subst h
      exact List.mem_cons_self _ _
    · rw [alookup, if_neg hk] at h
      exact List.mem_cons_of_mem _ (ih h)

theorem alookup_none_of_forall {α : Type} {l : List (String × α)} {q : String}
    (h : ∀ kv ∈ l, kv.1 ≠ q) : alookup l q = none := by
  induction l with
  | nil => rfl
  | cons kv rest ih =>
    obtain ⟨k, v⟩ := kv
    rw [alookup, if_neg (h (k, v) (List.mem_cons_self _ _))]
    exact ih (fun kv hkv => h kv (List.mem_cons_of_mem _ hkv))

theorem FS.removeFile_audio (fs : FS) (p : String)
    (h : (fs.getAudio p).isSome) :
    fs.removeFile p = some { fs with audioFiles := aremove fs.audioFiles p } := by
  rw [FS.removeFile, if_pos (show (alookup fs.audioFiles p).isSome = true from h)]

theorem FS.removeFile_absent (fs : FS) (p : String)
    (ha : fs.getAudio p = none) (ht : fs.getText p = none) :
    fs.removeFile p = none := by
  rw [FS.removeFile, if_neg (by rw [FS.getAudio] at ha; simp [ha]),
    if_neg (by rw [FS.getText] at ht; simp [ht])]

theorem cleanup_segments_ok (src : String) :
    ∀ (ps : List String) (fs : FS), ps.Nodup →
      (∀ p ∈ ps, p ≠ src → (fs.getAudio p).isSome) →
      (cleanup_segments src ps fs).2 = none ∧
      (cleanup_segments src ps fs).1.textFiles = fs.textFiles ∧
      (cleanup_segments src ps fs).1.dirs = fs.dirs ∧
      (∀ q, q ∈ ps → q ≠ src → (cleanup_segments src ps fs).1.getAudio q = none) ∧
      (∀ q, q ∉ ps → (cleanup_segments src ps fs).1.getAudio q = fs.getAudio q) ∧
      (∀ kv, kv ∈ (cleanup_segments src ps fs).1.audioFiles →
        kv ∈ fs.audioFiles ∧ (∀ p ∈ ps, p ≠ src → kv.1 ≠ p)) := by
  intro ps
  induction ps with
  | nil =>
    intro fs _ _
    exact ⟨rfl, rfl, rfl, by simp, fun q _ => rfl, fun kv h => ⟨h, by simp⟩⟩
  | cons p rest ih =>
    intro fs hnd hpres
    have hndr : rest.Nodup := hnd.of_cons
    have hpnr : p ∉ rest := (List.nodup_cons.mp hnd).1
    by_cases hpsrc : p = src
    · rw [cleanup_segments, if_pos hpsrc]
      obtain ⟨he, ht, hd, hin, hout, hmem⟩ :=
        ih fs hndr (fun q hq hqs => hpres q (List.mem_cons_of_mem _ hq) hqs)
      refine ⟨he, ht, hd, ?_, ?_, ?_⟩
      · intro q hq hqs
        rcases List.mem_cons.mp hq with rfl | hq2
        · exact absurd hpsrc hqs
        · exact hin q hq2 hqs
      · intro q hq
        exact hout q (fun h2 => hq (List.mem_cons_of_mem _ h2))
      · intro kv hkv
        obtain ⟨h1, h2⟩ := hmem kv hkv
        refine ⟨h1, ?_⟩
        intro p' hp' hp's
        rcases List.mem_cons.mp hp' with rfl | hp'2
        · exact absurd hpsrc hp's
        · exact h2 p' hp'2 hp's
    · have hsome := hpres p (List.mem_cons_self _ _) hpsrc
      have hrm := FS.removeFile_audio fs p hsome
      rw [cleanup_segments, if_neg hpsrc, hrm]
      set fs1 : FS := { fs with audioFiles := aremove fs.audioFiles p } with hfs1
      have hpres1 : ∀ q ∈ rest, q ≠ src → (fs1.getAudio q).isSome := by
        intro q hq hqs
        have hqp : p ≠ q := fun h => hpnr (h ▸ hq)
        have heq : fs1.getAudio q = fs.getAudio q := alookup_aremove_ne _ hqp
        rw [heq]
        exact hpres q (List.mem_cons_of_mem _ hq) hqs
      obtain ⟨he, ht, hd, hin, hout, hmem⟩ := ih fs1 hndr hpres1
      refine ⟨he, ht, hd, ?_, ?_, ?_⟩
      · intro q hq hqs
        rcases List.mem_cons.mp hq with rfl | hq2
        · rw [hout q hpnr]
          exact alookup_aremove_self _ _
        · exact hin q hq2 hqs
      · intro q hq
        have hq1 : q ∉ rest := fun h2 => hq (List.mem_cons_of_mem _ h2)
        have hqp : p ≠ q := fun h => hq (h ▸ List.mem_cons_self _ _)
        rw [hout q hq1]
        exact alookup_aremove_ne _ hqp
      · intro kv hkv
        obtain ⟨h1, h2⟩ := hmem kv hkv
        obtain ⟨h3, h4⟩ := mem_aremove h1
        refine ⟨h3, ?_⟩
        intro p' hp' hp's
        rcases List.mem_cons.mp hp' with rfl | hp'2
        · exact h4
        · exact h2 p' hp'2 hp's

theorem cleanup_segments_missing (src : String) :
    ∀ (pre : List String) (q : String) (post : List String) (fs : FS),
      pre.Nodup → (∀ p ∈ pre, p ≠ src) → (∀ p ∈ pre, (fs.getAudio p).isSome) →
      q ∉ pre → q ≠ src → fs.getAudio q = none → fs.getText q = none →
      (cleanup_segments src (pre ++ q :: post) fs).2 = some PyErr.fileNotFound ∧
      (cleanup_segments src (pre ++ q :: post) fs).1.textFiles = fs.textFiles ∧
      (cleanup_segments src (pre ++ q :: post) fs).1.dirs = fs.dirs ∧
      (∀ r, r ∉ pre → (cleanup_segments src (pre ++ q :: post) fs).1.getAudio r =
        fs.getAudio r) := by
  intro pre
  induction pre with
  | nil =>
    intro q post fs _ _ _ _ hqs hqa hqt
    rw [List.nil_append, cleanup_segments, if_neg hqs, FS.removeFile_absent fs q hqa hqt]
    exact ⟨rfl, rfl, rfl, fun r _ => rfl⟩
  | cons p pre' ih =>
    intro q post fs hnd hnsrc hpres hqpre hqs hqa hqt
    have hndr : pre'.Nodup := hnd.of_cons
    have hpnr : p ∉ pre' := (List.nodup_cons.mp hnd).1
    have hpsrc : p ≠ src := hnsrc p (List.mem_cons_self _ _)
    have hsome := hpres p (List.mem_cons_self _ _)
    have hrm := FS.removeFile_audio fs p hsome
    rw [List.cons_append, cleanup_segments, if_neg hpsrc, hrm]
    set fs1 : FS := { fs with audioFiles := aremove fs.audioFiles p } with hfs1
    have hqp : p ≠ q := fun h => hqpre (h ▸ List.mem_cons_self _ _)
    have hget1 : ∀ r, p ≠ r → fs1.getAudio r = fs.getAudio r := by
      intro r hr
      exact alookup_aremove_ne _ hr
    obtain ⟨he, ht, hd, hun⟩ := ih q post fs1 hndr
      (fun r hr => hnsrc r (List.mem_cons_of_mem _ hr))
      (fun r hr => by
        have hrp : p ≠ r := fun h => hpnr (h ▸ hr)
        rw [hget1 r hrp]
        exact hpres r (List.mem_cons_of_mem _ hr))
      (fun h => hqpre (List.mem_cons_of_mem _ h)) hqs
      (by rw [hget1 q hqp]; exact hqa) hqt
    refine ⟨he, ht, hd, ?_⟩
    intro r hr
    have hr' : r ∉ pre' := fun h => hr (List.mem_cons_of_mem _ h)
    have hrp : p ≠ r := fun h => hr (h ▸ List.mem_cons_self _ _)
    rw [hun r hr', hget1 r hrp]

/-! ### The temporary directory can be removed after cleanup -/

theorem FS.hasFileIn_false_intro (fs : FS) (d : String)
    (ha : ∀ kv ∈ fs.audioFiles, listPre (d ++ "/").data kv.1.data = false)
    (ht : ∀ kv ∈ fs.textFiles, listPre (d ++ "/").data kv.1.data = false) :
    fs.hasFileIn d = false := by
  rw [FS.hasFileIn]
  have h1 : fs.audioFiles.any (fun kv => listPre (d ++ "/").data kv.1.data) = false := by
    rw [List.any_eq_false]
    intro kv hkv
    simp only [ha kv hkv]
    exact Bool.false_ne_true
  have h2 : fs.textFiles.any (fun kv => listPre (d ++ "/").data kv.1.data) = false := by
    rw [List.any_eq_false]
    intro kv hkv
    simp only [ht kv hkv]
    exact Bool.false_ne_true
  rw [h1, h2]
  rfl

theorem FS.hasFileIn_false_elim (fs : FS) (d : String) (h : fs.hasFileIn d = false) :
    (∀ kv ∈ fs.audioFiles, listPre (d ++ "/").data kv.1.data = false) ∧
    (∀ kv ∈ fs.textFiles, listPre (d ++ "/").data kv.1.data = false) := by
  rw [FS.hasFileIn, Bool.or_eq_false_iff, List.any_eq_false, List.any_eq_false] at h
  exact ⟨fun kv hkv => by simpa using h.1 kv hkv, fun kv hkv => by simpa using h.2 kv hkv⟩

theorem FS.rmdir_ok (fs : FS) (d : String) (hd : d ∈ fs.dirs)
    (hf : fs.hasFileIn d = false) :
    fs.rmdir d = some { fs with dirs := fs.dirs.filter (fun x => x != d) } := by
  rw [FS.rmdir, if_pos ⟨hd, hf⟩]

theorem cleanup_phase_ok {ps : List String} {src : String} {fs fs5 : FS}
    (hlen : 1 < ps.length)
    (herr : (cleanup_segments src ps fs).2 = none)
    (hrm : (cleanup_segments src ps fs).1.rmdir tempDirName = some fs5) :
    cleanup_phase ps src fs = (fs5, none) := by
  have hX : cleanup_segments src ps fs = ((cleanup_segments src ps fs).1, none) := by
    rw [← herr]
  rw [cleanup_phase, if_pos hlen, hX]
  simp only [hrm]

theorem finish_phase_ok {ps : List String} {src : String} {fs fs5 : FS}
    (calls : List (Nat × Nat)) (h : cleanup_phase ps src fs = (fs5, none)) :
    finish_phase ps src fs calls = ⟨0, fs5, calls⟩ := by
  rw [finish_phase, h]

theorem finish_phase_skip (ps : List String) (src : String) (fs : FS)
    (calls : List (Nat × Nat)) (h : ¬1 < ps.length) :
    finish_phase ps src fs calls = ⟨0, fs, calls⟩ := by
  rw [finish_phase, cleanup_phase, if_neg h]

/-! ### Reducing one full run to its phases -/

theorem FS.getAudio_mkdir (fs : FS) (d q : String) :
    (fs.mkdir d).getAudio q = fs.getAudio q := by
  rw [FS.getAudio, FS.getAudio, FS.mkdir_audioFiles]

theorem FS.getText_mkdir (fs : FS) (d q : String) :
    (fs.mkdir d).getText q = fs.getText q := by
  rw [FS.getText, FS.getText, FS.mkdir_textFiles]

theorem FS.mem_mkdir_dirs_ne (fs : FS) {d e : String} (h : d ≠ e) :
    d ∈ (fs.mkdir e).dirs ↔ d ∈ fs.dirs := by
  rw [FS.mkdir]
  split
  · exact Iff.rfl
  · simp [h]

/-- The audio actually exported for window `i` of an original recording
`(0, len_ms)` is exactly `chunk_window len_ms max_duration i`. -/
theorem audioSlice_eq_window (len_ms max_duration i : Nat) (hM : 0 < max_duration)
    (hlen : 0 < len_ms) (hi : i < num_segments len_ms max_duration) :
    audioSlice (0, len_ms) (i * max_duration * 1000)
        (min ((i + 1) * max_duration * 1000) len_ms) =
      chunk_window len_ms max_duration i := by
  have hstart := chunk_window_start_lt_len len_ms max_duration i hM hlen hi
  rw [chunk_window_start_eq] at hstart
  have hstart' : i * max_duration * 1000 < len_ms := by
    have h : i * max_duration * 1000 = i * (1000 * max_duration) := by ring
    omega
  rw [audioSlice, chunk_window]
  simp only [Nat.sub_zero, Nat.zero_add]
  rw [Nat.min_eq_left (by omega : i * max_duration * 1000 ≤ len_ms),
    Nat.min_eq_left (Nat.min_le_right ((i + 1) * max_duration * 1000) len_ms)]

theorem transcribe_with_models_reduce (now : String) (oracle : Nat × Nat → Option String)
    (fs : FS) (src out : String) (max_duration : Nat) :
    transcribe_with_models true now oracle fs src (some out) max_duration =
      (match split_audio fs src max_duration with
       | (fs1, Except.error _) => ⟨1, fs1, []⟩
       | (fs1, Except.ok ps) =>
         match transcribe_loop oracle out ps 0 (fs1.writeText out (headerText src now)) [] with
         | (fs3, calls, some _) => ⟨1, fs3, calls⟩
         | (fs3, calls, none) => finish_phase ps src fs3 calls) := rfl

theorem transcribe_with_models_no_key (now : String) (oracle : Nat × Nat → Option String)
    (fs : FS) (src : String) (out : Option String) (max_duration : Nat) :
    transcribe_with_models false now oracle fs src out max_duration = ⟨1, fs, []⟩ := rfl

theorem transcribe_with_models_of_loop_ok
    {now src out : String} {oracle : Nat × Nat → Option String} {fs fs1 : FS}
    {ps : List String} {max_duration : Nat}
    (hsplit : split_audio fs src max_duration = (fs1, Except.ok ps))
    (he : (transcribe_loop oracle out ps 0
      (fs1.writeText out (headerText src now)) []).2.2 = none) :
    transcribe_with_models true now oracle fs src (some out) max_duration =
      finish_phase ps src
        (transcribe_loop oracle out ps 0 (fs1.writeText out (headerText src now)) []).1
        (transcribe_loop oracle out ps 0 (fs1.writeText out (headerText src now)) []).2.1 := by
  rw [transcribe_with_models_reduce]
  simp only [hsplit]
  rcases hX : transcribe_loop oracle out ps 0 (fs1.writeText out (headerText src now)) []
    with ⟨a, b, c⟩
  rw [hX] at he
  simp only at he
  subst he
  rfl

theorem transcribe_with_models_of_loop_fail
    {now src out : String} {oracle : Nat × Nat → Option String} {fs fs1 : FS}
    {ps : List String} {max_duration : Nat} {err : PyErr}
    (hsplit : split_audio fs src max_duration = (fs1, Except.ok ps))
    (he : (transcribe_loop oracle out ps 0
      (fs1.writeText out (headerText src now)) []).2.2 = some err) :
    transcribe_with_models true now oracle fs src (some out) max_duration =
      ⟨1, (transcribe_loop oracle out ps 0 (fs1.writeText out (headerText src now)) []).1,
        (transcribe_loop oracle out ps 0 (fs1.writeText out (headerText src now)) []).2.1⟩ := by
  rw [transcribe_with_models_reduce]
  simp only [hsplit]
  rcases hX : transcribe_loop oracle out ps 0 (fs1.writeText out (headerText src now)) []
    with ⟨a, b, c⟩
  rw [hX] at he
  simp only at he
  subst he
  rfl

theorem transcribe_with_models_split_error
    {now src : String} {oracle : Nat × Nat → Option String} {fs fs1 : FS}
    {max_duration : Nat} {e : PyErr} (out : String)
    (hsplit : split_audio fs src max_duration = (fs1, Except.error e)) :
    transcribe_with_models true now oracle fs src (some out) max_duration = ⟨1, fs1, []⟩ := by
  rw [transcribe_with_models_reduce, hsplit]

/-! ### Full characterization of a successful multi-chunk run -/

theorem run_success_multi
    (oracle : Nat × Nat → Option String) (now src out : String) (fs : FS)
    (max_duration len : Nat) (tf : Nat → String)
    (hM : 0 < max_duration)
    (hw : fs.getAudio src = some (0, len))
    (hmulti : 1000 * max_duration < len)
    (horc : ∀ i, i < num_segments len max_duration →
      oracle (chunk_window len max_duration i) = some (tf i))
    (hcl : fs.hasFileIn tempDirName = false)
    (hout : inTempDir out = false) :
    (transcribe_with_models true now oracle fs src (some out) max_duration).exit = 0 ∧
    (transcribe_with_models true now oracle fs src (some out) max_duration).calls =
      (List.range' 0 (num_segments len max_duration)).map (chunk_window len max_duration) ∧
    (transcribe_with_models true now oracle fs src (some out) max_duration).fs.getText out =
      some (headerText src now ++
        renderBodies 0 ((List.range' 0 (num_segments len max_duration)).map tf)) ∧
    (∀ q, q ≠ out →
      (transcribe_with_models true now oracle fs src (some out) max_duration).fs.getText q =
        fs.getText q) ∧
    (∀ i, i < num_segments len max_duration →
      (transcribe_with_models true now oracle fs src (some out) max_duration).fs.getAudio
        (segPath i) = none) ∧
    (∀ q, inTempDir q = false →
      (transcribe_with_models true now oracle fs src (some out) max_duration).fs.getAudio q =
        fs.getAudio q) ∧
    tempDirName ∉ (transcribe_with_models true now oracle fs src (some out) max_duration).fs.dirs ∧
    (∀ d, d ≠ tempDirName →
      (d ∈ (transcribe_with_models true now oracle fs src (some out) max_duration).fs.dirs ↔
        d ∈ fs.dirs)) := by
  have hlen : 0 < len := by omega
  have hn1 : 1 < num_segments len max_duration :=
    (one_lt_num_segments_iff len max_duration hM).mpr hmulti
  set n := num_segments len max_duration with hn
  obtain ⟨hclA, hclT⟩ := FS.hasFileIn_false_elim fs tempDirName hcl
  have hsrcmem : (src, (0, len)) ∈ fs.audioFiles := alookup_some_mem hw
  have hsrcpre : listPre (tempDirName ++ "/").data src.data = false := hclA _ hsrcmem
  have hsrc_ne : ∀ j : Nat, src ≠ segPath j := by
    intro j h
    have hseg := segPath_inTempDir j
    rw [inTempDir, ← h, hsrcpre] at hseg
    exact Bool.false_ne_true hseg
  have hsplit := split_audio_multi fs src max_duration hw hn1
  simp only [Nat.sub_zero] at hsplit
  set ps := (List.range' 0 n).map segPath with hps
  set E := (export_segments (0, len) len max_duration 0 n (fs.mkdir tempDirName)).1 with hE
  have hps_len : ps.length = n := by
    rw [hps]
    simp
  have hps_nd : ps.Nodup := (List.nodup_range' 0 n 1 (by omega)).map segPath_injective
  have hps_get : ∀ (k : Nat) (hk : k < ps.length), ps.get ⟨k, hk⟩ = segPath k := by
    intro k hk
    show (List.map segPath (List.range' 0 n)).get ⟨k, hk⟩ = segPath k
    simp [List.get_eq_getElem, List.getElem_map, List.getElem_range']
  have hps_mem : ∀ p ∈ ps, ∃ j, j < n ∧ p = segPath j := by
    intro p hp
    rw [hps] at hp
    obtain ⟨j, hj, rfl⟩ := List.mem_map.mp hp
    have hb := List.mem_range'_1.mp hj
    exact ⟨j, by omega, rfl⟩
  have hmem_ps : ∀ j, j < n → segPath j ∈ ps := by
    intro j hj
    rw [hps]
    exact List.mem_map.mpr ⟨j, List.mem_range'_1.mpr ⟨by omega, by omega⟩, rfl⟩
  have hEtext : E.textFiles = fs.textFiles := by
    rw [hE, export_segments_textFiles, FS.mkdir_textFiles]
  have hEdirs : E.dirs = (fs.mkdir tempDirName).dirs := by
    rw [hE, export_segments_dirs]
  have hEseg : ∀ j, j < n → E.getAudio (segPath j) =
      some (chunk_window len max_duration j) := by
    intro j hj
    rw [hE, export_segments_getAudio_seg (0, len) len max_duration n 0 _ j
      (by omega) (by omega)]
    rw [audioSlice_eq_window len max_duration j hM hlen (by omega)]
  have hEother : ∀ q, inTempDir q = false → E.getAudio q = fs.getAudio q := by
    intro q hq
    rw [hE, export_segments_getAudio_other (0, len) len max_duration n 0 _ q ?_,
      FS.getAudio_mkdir]
    intro j _ _ hqe
    rw [hqe] at hq
    have hseg := segPath_inTempDir j
    rw [hq] at hseg
    exact Bool.false_ne_true hseg
  have hEmem : ∀ kv, kv ∈ E.audioFiles →
      kv ∈ fs.audioFiles ∨ ∃ j, j < n ∧ kv.1 = segPath j := by
    intro kv hkv
    rw [hE] at hkv
    rcases export_segments_mem_audio (0, len) len max_duration n 0 _ kv hkv with
      h | ⟨j, hj1, hj2, hj3⟩
    · rw [FS.mkdir_audioFiles] at h
      exact Or.inl h
    · exact Or.inr ⟨j, by omega, hj3⟩
  set fs2 := E.writeText out (headerText src now) with hfs2
  have hcur : fs2.getText out = some (headerText src now) :=
    FS.getText_writeText_self E out (headerText src now)
  have hpres : ∀ k (hk : k < ps.length),
      fs2.getAudio (ps.get ⟨k, hk⟩) = some (chunk_window len max_duration (0 + k)) := by
    intro k hk
    rw [hps_get k hk, hfs2, FS.getAudio_writeText, hEseg k (by omega), Nat.zero_add]
  have horcps : ∀ k, k < ps.length →
      oracle (chunk_window len max_duration (0 + k)) = some (tf (0 + k)) := by
    intro k hk
    rw [Nat.zero_add]
    exact horc k (by omega)
  obtain ⟨he, hcalls, haud, hdirs, htext, hother, hmemT⟩ :=
    transcribe_loop_success oracle out (chunk_window len max_duration) tf ps 0 fs2 []
      (headerText src now) hcur hpres horcps
  set fs3 := (transcribe_loop oracle out ps 0 fs2 []).1 with hfs3
  have hga3 : ∀ q, fs3.getAudio q = fs2.getAudio q := by
    intro q
    rw [FS.getAudio, FS.getAudio, haud]
  have hgt3 : ∀ q, q ≠ out → fs3.getText q = fs2.getText q := hother
  have hpres4 : ∀ p ∈ ps, p ≠ src → (fs3.getAudio p).isSome := by
    intro p hp _
    obtain ⟨j, hj, rfl⟩ := hps_mem p hp
    rw [hga3, hfs2, FS.getAudio_writeText, hEseg j hj]
    rfl
  obtain ⟨herr4, htext4, hdirs4, hin4, hout4, hmem4⟩ :=
    cleanup_segments_ok src ps fs3 hps_nd hpres4
  set fs4 := (cleanup_segments src ps fs3).1 with hfs4
  have hgt4 : ∀ q, fs4.getText q = fs3.getText q := by
    intro q
    rw [FS.getText, FS.getText, htext4]
  have htmp4 : tempDirName ∈ fs4.dirs := by
    rw [hdirs4, hdirs, hfs2, FS.dirs_writeText, hEdirs]
    exact FS.mem_mkdir_dirs fs tempDirName
  have hclean4 : fs4.hasFileIn tempDirName = false := by
    apply FS.hasFileIn_false_intro
    · intro kv hkv
      obtain ⟨h1, h2⟩ := hmem4 kv hkv
      rw [haud, hfs2, FS.audioFiles_writeText] at h1
      rcases hEmem kv h1 with hA | ⟨j, hj, hkey⟩
      · exact hclA kv hA
      · exact absurd hkey (h2 (segPath j) (hmem_ps j hj) (hsrc_ne j).symm)
    · intro kv hkv
      rw [htext4] at hkv
      rcases hmemT kv hkv with h | h
      · have h' : kv ∈ aset E.textFiles out (headerText src now) := h
        rcases mem_aset h' with h2 | h2
        · rw [hEtext] at h2
          exact hclT kv h2
        · rw [h2]
          exact hout
      · rw [h]
        exact hout
  have hrm := FS.rmdir_ok fs4 tempDirName htmp4 hclean4
  have hlenps : 1 < ps.length := by omega
  have hcp := cleanup_phase_ok hlenps herr4 hrm
  have hrun := transcribe_with_models_of_loop_ok hsplit he
  have hfin := finish_phase_ok ((transcribe_loop oracle out ps 0 fs2 []).2.1) hcp
  rw [hrun, hfin]
  refine ⟨rfl, ?_, ?_, ?_, ?_, ?_, ?_, ?_⟩
  · rw [hcalls, hps_len]
    simp
  · rw [show ∀ q, FS.getText
      { fs4 with dirs := fs4.dirs.filter (fun x => x != tempDirName) } q = fs4.getText q
      from fun q => rfl]
    rw [hgt4, htext, hps_len]
  · intro q hq
    rw [show FS.getText
      { fs4 with dirs := fs4.dirs.filter (fun x => x != tempDirName) } q = fs4.getText q
      from rfl]
    rw [hgt4, hgt3 q hq, hfs2, FS.getText_writeText_ne E _ (fun h => hq h.symm)]
    rw [FS.getText, hEtext]
    rfl
  · intro i hi
    rw [show FS.getAudio
      { fs4 with dirs := fs4.dirs.filter (fun x => x != tempDirName) } (segPath i) =
      fs4.getAudio (segPath i) from rfl]
    exact hin4 (segPath i) (hmem_ps i hi) (hsrc_ne i).symm
  · intro q hq
    rw [show FS.getAudio
      { fs4 with dirs := fs4.dirs.filter (fun x => x != tempDirName) } q =
      fs4.getAudio q from rfl]
    have hqps : q ∉ ps := by
      intro hmem
      obtain ⟨j, _, rfl⟩ := hps_mem q hmem
      have hseg := segPath_inTempDir j
      rw [hq] at hseg
      exact Bool.false_ne_true hseg
    rw [hout4 q hqps, hga3, hfs2, FS.getAudio_writeText, hEother q hq]
  · rw [show FS.dirs { fs4 with dirs := fs4.dirs.filter (fun x => x != tempDirName) } =
      fs4.dirs.filter (fun x => x != tempDirName) from rfl]
    intro hmem
    exact absurd (mem_filter_out.mp hmem).2 (by simp)
  · intro d hd
    rw [show FS.dirs { fs4 with dirs := fs4.dirs.filter (fun x => x != tempDirName) } =
      fs4.dirs.filter (fun x => x != tempDirName) from rfl]
    rw [mem_filter_out]
    constructor
    · intro h
      have h4 := h.1
      rw [hdirs4, hdirs, hfs2, FS.dirs_writeText, hEdirs] at h4
      exact (FS.mem_mkdir_dirs_ne fs hd).mp h4
    · intro h
      refine ⟨?_, hd⟩
      rw [hdirs4, hdirs, hfs2, FS.dirs_writeText, hEdirs]
      exact (FS.mem_mkdir_dirs_ne fs hd).mpr h

/-! ### Full characterization of a run failing at chunk `k` (multi-chunk) -/

theorem run_fail_multi
    (oracle : Nat × Nat → Option String) (now src out : String) (fs : FS)
    (max_duration len k : Nat) (tf : Nat → String)
    (hM : 0 < max_duration)
    (hw : fs.getAudio src = some (0, len))
    (hmulti : 1000 * max_duration < len)
    (hk : k < num_segments len max_duration)
    (horc : ∀ i, i < k → oracle (chunk_window len max_duration i) = some (tf i))
    (hfail : oracle (chunk_window len max_duration k) = none) :
    (transcribe_with_models true now oracle fs src (some out) max_duration).exit = 1 ∧
    (transcribe_with_models true now oracle fs src (some out) max_duration).calls =
      (List.range' 0 (k + 1)).map (chunk_window len max_duration) ∧
    (transcribe_with_models true now oracle fs src (some out) max_duration).fs.getText out =
      some (headerText src now ++ renderBodies 0 ((List.range' 0 k).map tf)) ∧
    (∀ q, q ≠ out →
      (transcribe_with_models true now oracle fs src (some out) max_duration).fs.getText q =
        fs.getText q) ∧
    (∀ i, i < num_segments len max_duration →
      (transcribe_with_models true now oracle fs src (some out) max_duration).fs.getAudio
        (segPath i) = some (chunk_window len max_duration i)) ∧
    tempDirName ∈ (transcribe_with_models true now oracle fs src (some out) max_duration).fs.dirs ∧
    (∀ q, inTempDir q = false →
      (transcribe_with_models true now oracle fs src (some out) max_duration).fs.getAudio q =
        fs.getAudio q) := by
  have hlen : 0 < len := by omega
  have hn1 : 1 < num_segments len max_duration :=
    (one_lt_num_segments_iff len max_duration hM).mpr hmulti
  set n := num_segments len max_duration with hn
  have hsplit := split_audio_multi fs src max_duration hw hn1
  simp only [Nat.sub_zero] at hsplit
  set ps := (List.range' 0 n).map segPath with hps
  set E := (export_segments (0, len) len max_duration 0 n (fs.mkdir tempDirName)).1 with hE
  have hps_len : ps.length = n := by
    rw [hps]
    simp
  have hps_get : ∀ (j : Nat) (hj : j < ps.length), ps.get ⟨j, hj⟩ = segPath j := by
    intro j hj
    show (List.map segPath (List.range' 0 n)).get ⟨j, hj⟩ = segPath j
    simp [List.get_eq_getElem, List.getElem_map, List.getElem_range']
  have hEtext : E.textFiles = fs.textFiles := by
    rw [hE, export_segments_textFiles, FS.mkdir_textFiles]
  have hEdirs : E.dirs = (fs.mkdir tempDirName).dirs := by
    rw [hE, export_segments_dirs]
  have hEseg : ∀ j, j < n → E.getAudio (segPath j) =
      some (chunk_window len max_duration j) := by
    intro j hj
    rw [hE, export_segments_getAudio_seg (0, len) len max_duration n 0 _ j
      (by omega) (by omega)]
    rw [audioSlice_eq_window len max_duration j hM hlen (by omega)]
  have hEother : ∀ q, inTempDir q = false → E.getAudio q = fs.getAudio q := by
    intro q hq
    rw [hE, export_segments_getAudio_other (0, len) len max_duration n 0 _ q ?_,
      FS.getAudio_mkdir]
    intro j _ _ hqe
    rw [hqe] at hq
    have hseg := segPath_inTempDir j
    rw [hq] at hseg
    exact Bool.false_ne_true hseg
  set fs2 := E.writeText out (headerText src now) with hfs2
  have hcur : fs2.getText out = some (headerText src now) :=
    FS.getText_writeText_self E out (headerText src now)
  have hpres : ∀ j (hj : j < ps.length),
      fs2.getAudio (ps.get ⟨j, hj⟩) = some (chunk_window len max_duration (0 + j)) := by
    intro j hj
    rw [hps_get j hj, hfs2, FS.getAudio_writeText, hEseg j (by omega), Nat.zero_add]
  have horcps : ∀ j, j < k →
      oracle (chunk_window len max_duration (0 + j)) = some (tf (0 + j)) := by
    intro j hj
    rw [Nat.zero_add]
    exact horc j hj
  have hfail0 : oracle (chunk_window len max_duration (0 + k)) = none := by
    rw [Nat.zero_add]
    exact hfail
  obtain ⟨he, hcalls, haud, hdirs, htext, hother⟩ :=
    transcribe_loop_fail oracle out (chunk_window len max_duration) tf ps k 0 fs2 []
      (headerText src now) hcur hpres horcps hfail0 (by omega)
  have hrun := transcribe_with_models_of_loop_fail hsplit he
  rw [hrun]
  have hga3 : ∀ q, (transcribe_loop oracle out ps 0 fs2 []).1.getAudio q =
      fs2.getAudio q := by
    intro q
    rw [FS.getAudio, FS.getAudio, haud]
  refine ⟨rfl, ?_, ?_, ?_, ?_, ?_, ?_⟩
  · rw [hcalls]
    simp
  · rw [htext]
  · intro q hq
    rw [hother q hq, hfs2, FS.getText_writeText_ne E _ (fun h => hq h.symm)]
    rw [FS.getText, hEtext]
    rfl
  · intro i hi
    rw [hga3, hfs2, FS.getAudio_writeText]
    exact hEseg i hi
  · show tempDirName ∈ (transcribe_loop oracle out ps 0 fs2 []).1.dirs
    rw [hdirs, hfs2, FS.dirs_writeText, hEdirs]
    exact FS.mem_mkdir_dirs fs tempDirName
  · intro q hq
    rw [hga3, hfs2, FS.getAudio_writeText]
    exact hEother q hq

/-! ### Single-chunk runs -/

theorem chunk_window_zero_single (len max_duration : Nat)
    (h : len ≤ 1000 * max_duration) : chunk_window len max_duration 0 = (0, len) := by
  rw [chunk_window]
  have h1 : (0 + 1) * max_duration * 1000 = 1000 * max_duration := by ring
  rw [Nat.zero_mul, Nat.zero_mul, h1, Nat.min_eq_right h]

theorem run_single_ok
    (oracle : Nat × Nat → Option String) (now src out : String) (fs : FS)
    (max_duration len : Nat) (t : String)
    (hM : 0 < max_duration)
    (hw : fs.getAudio src = some (0, len))
    (hsingle : len ≤ 1000 * max_duration)
    (horc : oracle (0, len) = some t) :
    (transcribe_with_models true now oracle fs src (some out) max_duration).exit = 0 ∧
    (transcribe_with_models true now oracle fs src (some out) max_duration).calls =
      [(0, len)] ∧
    (transcribe_with_models true now oracle fs src (some out) max_duration).fs.getText out =
      some (headerText src now ++ renderBodies 0 [t]) ∧
    (∀ q, q ≠ out →
      (transcribe_with_models true now oracle fs src (some out) max_duration).fs.getText q =
        fs.getText q) ∧
    (∀ q, (transcribe_with_models true now oracle fs src (some out) max_duration).fs.getAudio q =
      fs.getAudio q) ∧
    (transcribe_with_models true now oracle fs src (some out) max_duration).fs.dirs =
      fs.dirs := by
  have hn1 : num_segments len max_duration ≤ 1 :=
    (num_segments_le_one_iff len max_duration hM).mpr hsingle
  have hsplit := split_audio_single fs src max_duration hw hn1
  set fs2 := fs.writeText out (headerText src now) with hfs2
  have hcur : fs2.getText out = some (headerText src now) :=
    FS.getText_writeText_self fs out (headerText src now)
  have hpres : ∀ j (hj : j < ([src] : List String).length),
      fs2.getAudio (([src] : List String).get ⟨j, hj⟩) =
        some ((fun _ => ((0, len) : Nat × Nat)) (0 + j)) := by
    intro j hj
    have hj0 : j = 0 := by
      simp only [List.length_singleton] at hj
      omega
    subst hj0
    rw [hfs2, FS.getAudio_writeText]
    exact hw
  have horcps : ∀ j, j < ([src] : List String).length →
      oracle ((fun _ => ((0, len) : Nat × Nat)) (0 + j)) = some ((fun _ => t) (0 + j)) := by
    intro j hj
    exact horc
  obtain ⟨he, hcalls, haud, hdirs, htext, hother, hmemT⟩ :=
    transcribe_loop_success oracle out (fun _ => (0, len)) (fun _ => t) [src] 0 fs2 []
      (headerText src now) hcur hpres horcps
  have hrun := transcribe_with_models_of_loop_ok hsplit he
  have hfin := finish_phase_skip [src] src
    ((transcribe_loop oracle out [src] 0 fs2 []).1)
    ((transcribe_loop oracle out [src] 0 fs2 []).2.1) (by simp)
  rw [hrun, hfin]
  refine ⟨rfl, ?_, ?_, ?_, ?_, ?_⟩
  · rw [hcalls]
    simp [List.range'_one]
  · rw [htext]
    simp [List.range'_one]
  · intro q hq
    rw [hother q hq, hfs2, FS.getText_writeText_ne fs _ (fun h => hq h.symm)]
  · intro q
    rw [FS.getAudio, haud, hfs2, FS.audioFiles_writeText]
    rfl
  · rw [hdirs, hfs2, FS.dirs_writeText]

theorem run_single_fail
    (oracle : Nat × Nat → Option String) (now src out : String) (fs : FS)
    (max_duration len : Nat)
    (hM : 0 < max_duration)
    (hw : fs.getAudio src = some (0, len))
    (hsingle : len ≤ 1000 * max_duration)
    (horc : oracle (0, len) = none) :
    (transcribe_with_models true now oracle fs src (some out) max_duration).exit = 1 ∧
    (transcribe_with_models true now oracle fs src (some out) max_duration).calls =
      [(0, len)] ∧
    (transcribe_with_models true now oracle fs src (some out) max_duration).fs.getText out =
      some (headerText src now) ∧
    (∀ q, q ≠ out →
      (transcribe_with_models true now oracle fs src (some out) max_duration).fs.getText q =
        fs.getText q) ∧
    (∀ q, (transcribe_with_models true now oracle fs src (some out) max_duration).fs.getAudio q =
      fs.getAudio q) ∧
    (transcribe_with_models true now oracle fs src (some out) max_duration).fs.dirs =
      fs.dirs := by
  have hn1 : num_segments len max_duration ≤ 1 :=
    (num_segments_le_one_iff len max_duration hM).mpr hsingle
  have hsplit := split_audio_single fs src max_duration hw hn1
  set fs2 := fs.writeText out (headerText src now) with hfs2
  have hcur : fs2.getText out = some (headerText src now) :=
    FS.getText_writeText_self fs out (headerText src now)
  have hpres : ∀ j (hj : j < ([src] : List String).length),
      fs2.getAudio (([src] : List String).get ⟨j, hj⟩) =
        some ((fun _ => ((0, len) : Nat × Nat)) (0 + j)) := by
    intro j hj
    have hj0 : j = 0 := by
      simp only [List.length_singleton] at hj
      omega
    subst hj0
    rw [hfs2, FS.getAudio_writeText]
    exact hw
  obtain ⟨he, hcalls, haud, hdirs, htext, hother⟩ :=
    transcribe_loop_fail oracle out (fun _ => (0, len)) (fun _ => "") [src] 0 0 fs2 []
      (headerText src now) hcur hpres (by omega) horc (by simp)
  have hrun := transcribe_with_models_of_loop_fail hsplit he
  rw [hrun]
  refine ⟨rfl, ?_, ?_, ?_, ?_, ?_⟩
  · rw [hcalls]
    simp [List.range'_one]
  · rw [htext]
    simp [renderBodies, string_append_empty]
  · intro q hq
    rw [hother q hq, hfs2, FS.getText_writeText_ne fs _ (fun h => hq h.symm)]
  · intro q
    rw [FS.getAudio, haud, hfs2, FS.audioFiles_writeText]
    rfl
  · rw [hdirs, hfs2, FS.dirs_writeText]

/-! ### The claims -/

/-- C1: for every input of total duration `T` strictly greater than
`maxDurationSeconds`, `split_audio` returns exactly `ceil(T / maxDurationSeconds)`
chunks in ascending ordinal order; the chunk windows are contiguous and
non-overlapping, each chunk's duration is at most `maxDurationSeconds`
(durations in milliseconds), the durations sum exactly to `T`, the first
window starts at 0 and the last ends at `T`.  (`len` is the duration in
milliseconds; the count equals the rational ceiling of `(len/1000)/max`.) -/
theorem C1_segmenter_windows
    (fs : FS) (src : String) (max_duration len : Nat)
    (hM : 0 < max_duration)
    (hw : fs.getAudio src = some (0, len))
    (hT : 1000 * max_duration < len) :
    num_segments len max_duration = ⌈((len : ℚ) / 1000) / (max_duration : ℚ)⌉₊ ∧
    (split_audio fs src max_duration).2 =
      Except.ok ((List.range' 0 (num_segments len max_duration)).map segPath) ∧
    (∀ i, i < num_segments len max_duration →
      (split_audio fs src max_duration).1.getAudio (segPath i) =
        some (chunk_window len max_duration i)) ∧
    (∀ i, i + 1 < num_segments len max_duration →
      (chunk_window len max_duration i).2 = (chunk_window len max_duration (i + 1)).1) ∧
    (∀ i, i < num_segments len max_duration →
      (chunk_window len max_duration i).2 - (chunk_window len max_duration i).1 ≤
        1000 * max_duration) ∧
    ((List.range (num_segments len max_duration)).map (fun i =>
        (chunk_window len max_duration i).2 - (chunk_window len max_duration i).1)).sum =
      len ∧
    (chunk_window len max_duration 0).1 = 0 ∧
    (chunk_window len max_duration (num_segments len max_duration - 1)).2 = len := by
  have hlen : 0 < len := by omega
  have hn1 : 1 < num_segments len max_duration :=
    (one_lt_num_segments_iff len max_duration hM).mpr hT
  have hsplit := split_audio_multi fs src max_duration hw hn1
  simp only [Nat.sub_zero] at hsplit
  refine ⟨num_segments_eq_ceil len max_duration hM, ?_, ?_, ?_, ?_, ?_, ?_, ?_⟩
  · rw [hsplit]
  · intro i hi
    rw [hsplit]
    rw [export_segments_getAudio_seg (0, len) len max_duration
      (num_segments len max_duration) 0 _ i (by omega) (by omega)]
    rw [audioSlice_eq_window len max_duration i hM hlen hi]
  · intro i hi
    exact chunk_window_contiguous len max_duration i hM hlen hi
  · intro i _
    exact chunk_window_duration_le len max_duration i
  · exact durSum_eq_len len max_duration hM hlen
  · exact chunk_window_first_start len max_duration
  · exact chunk_window_last_stop len max_duration hM hlen

/-- Witness for C1: the spec's example, a 3000-second (3000000 ms) input
with `maxDurationSeconds = 1250` yields three chunks of durations 1250 s,
1250 s and 500 s (in ms: 1250000, 1250000, 500000). -/
theorem C1_segmenter_windows_witness :
    (0 < 1250 ∧
      (FS.mk [("a.mp3", (0, 3000000))] [] []).getAudio "a.mp3" = some (0, 3000000) ∧
      1000 * 1250 < 3000000) ∧
    num_segments 3000000 1250 = 3 ∧
    (List.range (num_segments 3000000 1250)).map (fun i =>
        (chunk_window 3000000 1250 i).2 - (chunk_window 3000000 1250 i).1) =
      [1250000, 1250000, 500000] ∧
    (num_segments 3000000 1250 =
        ⌈((3000000 : ℚ) / 1000) / ((1250 : Nat) : ℚ)⌉₊ ∧
      (split_audio (FS.mk [("a.mp3", (0, 3000000))] [] []) "a.mp3" 1250).2 =
        Except.ok ((List.range' 0 (num_segments 3000000 1250)).map segPath) ∧
      (∀ i, i < num_segments 3000000 1250 →
        (split_audio (FS.mk [("a.mp3", (0, 3000000))] [] []) "a.mp3" 1250).1.getAudio
          (segPath i) = some (chunk_window 3000000 1250 i)) ∧
      (∀ i, i + 1 < num_segments 3000000 1250 →
        (chunk_window 3000000 1250 i).2 = (chunk_window 3000000 1250 (i + 1)).1) ∧
      (∀ i, i < num_segments 3000000 1250 →
        (chunk_window 3000000 1250 i).2 - (chunk_window 3000000 1250 i).1 ≤ 1000 * 1250) ∧
      ((List.range (num_segments 3000000 1250)).map (fun i =>
          (chunk_window 3000000 1250 i).2 - (chunk_window 3000000 1250 i).1)).sum =
        3000000 ∧
      (chunk_window 3000000 1250 0).1 = 0 ∧
      (chunk_window 3000000 1250 (num_segments 3000000 1250 - 1)).2 = 3000000) :=
  ⟨⟨by decide, by decide, by decide⟩, by decide, by decide,
    C1_segmenter_windows (FS.mk [("a.mp3", (0, 3000000))] [] []) "a.mp3" 1250 3000000
      (by decide) (by decide) (by decide)⟩

/-- C8: when the total duration is an exact positive multiple
`T = m * maxDurationSeconds` with `T > maxDurationSeconds` (`2 ≤ m`),
`split_audio` produces exactly `m` windows, every one of duration exactly
`maxDurationSeconds` (no trailing zero-length window: every window is
non-empty), and the last window's stop bound equals `T`. -/
theorem C8_exact_multiple
    (fs : FS) (src : String) (max_duration m len : Nat)
    (hM : 0 < max_duration)
    (hm : 2 ≤ m)
    (hlen : len = m * (1000 * max_duration))
    (hw : fs.getAudio src = some (0, len)) :
    num_segments len max_duration = m ∧
    (split_audio fs src max_duration).2 =
      Except.ok ((List.range' 0 m).map segPath) ∧
    (∀ i, i < m →
      (chunk_window len max_duration i).2 - (chunk_window len max_duration i).1 =
        1000 * max_duration) ∧
    (∀ i, i < m →
      (chunk_window len max_duration i).1 < (chunk_window len max_duration i).2) ∧
    (chunk_window len max_duration (m - 1)).2 = len := by
  have hMpos : 0 < 1000 * max_duration := by omega
  have hsm : (m + 1) * (1000 * max_duration) =
      m * (1000 * max_duration) + 1000 * max_duration := Nat.succ_mul _ _
  have hnum : num_segments len max_duration = m := by
    rw [num_segments, hlen]
    exact Nat.div_eq_of_lt_le (by omega) (by omega)
  have hlen0 : 0 < len := by
    rw [hlen]
    have : 0 < m * (1000 * max_duration) := Nat.mul_pos (by omega) hMpos
    omega
  have hdur : ∀ i, i < m →
      (chunk_window len max_duration i).2 - (chunk_window len max_duration i).1 =
        1000 * max_duration := by
    intro i hi
    rw [chunk_window_start_eq, chunk_window_stop_eq]
    have hstop : (i + 1) * (1000 * max_duration) ≤ len := by
      rw [hlen]
      exact Nat.mul_le_mul_right _ (by omega)
    rw [Nat.min_eq_left hstop]
    rw [Nat.succ_mul]
    omega
  refine ⟨hnum, ?_, hdur, ?_, ?_⟩
  · have hn1 : 1 < num_segments len max_duration := by omega
    have hsplit := split_audio_multi fs src max_duration hw hn1
    simp only [Nat.sub_zero] at hsplit
    rw [hsplit, hnum]
  · intro i hi
    have := chunk_window_duration_pos len max_duration i hM hlen0 (by omega)
    exact this
  · have := chunk_window_last_stop len max_duration hM hlen0
    rw [hnum] at this
    exact this

/-- Witness for C8: duration 2500 s (= 2 × 1250 s) with
`maxDurationSeconds = 1250` yields exactly two full windows and no
trailing zero-length window. -/
theorem C8_exact_multiple_witness :
    (0 < 1250 ∧ 2 ≤ 2 ∧ 2500000 = 2 * (1000 * 1250) ∧
      (FS.mk [("a.mp3", (0, 2500000))] [] []).getAudio "a.mp3" = some (0, 2500000)) ∧
    (num_segments 2500000 1250 = 2 ∧
      (split_audio (FS.mk [("a.mp3", (0, 2500000))] [] []) "a.mp3" 1250).2 =
        Except.ok ((List.range' 0 2).map segPath) ∧
      (∀ i, i < 2 →
        (chunk_window 2500000 1250 i).2 - (chunk_window 2500000 1250 i).1 = 1000 * 1250) ∧
      (∀ i, i < 2 →
        (chunk_window 2500000 1250 i).1 < (chunk_window 2500000 1250 i).2) ∧
      (chunk_window 2500000 1250 (2 - 1)).2 = 2500000) :=
  ⟨⟨by decide, by decide, by decide, by decide⟩,
    C8_exact_multiple (FS.mk [("a.mp3", (0, 2500000))] [] []) "a.mp3" 1250 2 2500000
      (by decide) (by decide) (by decide) (by decide)⟩

/-- C3: for every input whose total duration is at most
`maxDurationSeconds`, `split_audio` returns the one-element list holding
exactly the original source path, with the filesystem unchanged (no
chunk file, no directory created); and the whole run never creates the
temporary chunk directory: the run's directories are exactly the initial
ones, whatever the transcription oracle does. -/
theorem C3_single_chunk_passthrough
    (fs : FS) (src : String) (max_duration len : Nat)
    (hM : 0 < max_duration)
    (hw : fs.getAudio src = some (0, len))
    (hsingle : len ≤ 1000 * max_duration)
    (htmp : tempDirName ∉ fs.dirs) :
    split_audio fs src max_duration = (fs, Except.ok [src]) ∧
    (∀ (oracle : Nat × Nat → Option String) (now out : String),
      (transcribe_with_models true now oracle fs src (some out) max_duration).fs.dirs =
        fs.dirs ∧
      tempDirName ∉
        (transcribe_with_models true now oracle fs src (some out) max_duration).fs.dirs) := by
  have hn1 : num_segments len max_duration ≤ 1 :=
    (num_segments_le_one_iff len max_duration hM).mpr hsingle
  refine ⟨split_audio_single fs src max_duration hw hn1, ?_⟩
  intro oracle now out
  rcases hor : oracle (0, len) with _ | t
  · obtain ⟨_, _, _, _, _, hdirs⟩ :=
      run_single_fail oracle now src out fs max_duration len hM hw hsingle hor
    rw [hdirs]
    exact ⟨rfl, htmp⟩
  · obtain ⟨_, _, _, _, _, hdirs⟩ :=
      run_single_ok oracle now src out fs max_duration len t hM hw hsingle hor
    rw [hdirs]
    exact ⟨rfl, htmp⟩

/-- Witness for C3: a 900-second (900000 ms) input with the default
`maxDurationSeconds = 1250` passes through unchanged. -/
theorem C3_single_chunk_passthrough_witness :
    (0 < 1250 ∧
      (FS.mk [("a.mp3", (0, 900000))] [] []).getAudio "a.mp3" = some (0, 900000) ∧
      900000 ≤ 1000 * 1250 ∧
      tempDirName ∉ (FS.mk [("a.mp3", (0, 900000))] [] []).dirs) ∧
    (split_audio (FS.mk [("a.mp3", (0, 900000))] [] []) "a.mp3" 1250 =
        (FS.mk [("a.mp3", (0, 900000))] [] [], Except.ok ["a.mp3"]) ∧
      (∀ (oracle : Nat × Nat → Option String) (now out : String),
        (transcribe_with_models true now oracle (FS.mk [("a.mp3", (0, 900000))] [] [])
            "a.mp3" (some out) 1250).fs.dirs = (FS.mk [("a.mp3", (0, 900000))] [] []).dirs ∧
        tempDirName ∉
          (transcribe_with_models true now oracle (FS.mk [("a.mp3", (0, 900000))] [] [])
            "a.mp3" (some out) 1250).fs.dirs)) :=
  ⟨⟨by decide, by decide, by decide, by decide⟩,
    C3_single_chunk_passthrough (FS.mk [("a.mp3", (0, 900000))] [] []) "a.mp3" 1250 900000
      (by decide) (by decide) (by decide) (by decide)⟩

/-- C9: when the environment-provided API key is absent the run returns
failure (exit 1) immediately: the filesystem is completely unchanged (no
output file is created or written, no chunk file is produced) and no
call is submitted to the transcription service. -/
theorem C9_missing_api_key
    (now : String) (oracle : Nat × Nat → Option String) (fs : FS)
    (src : String) (out : Option String) (max_duration : Nat) :
    (transcribe_with_models false now oracle fs src out max_duration).exit = 1 ∧
    (transcribe_with_models false now oracle fs src out max_duration).fs = fs ∧
    (transcribe_with_models false now oracle fs src out max_duration).calls = [] :=
  ⟨rfl, rfl, rfl⟩

/-- C2: the output document of a run is exactly the header block followed
by the segment bodies in chunk-ordinal order, where `renderBodies` places
the separator before every body except the first — so the header appears
exactly once, before any body, bodies follow the ordinals, and only
non-first bodies are preceded by the separator.  With a mock oracle
returning each chunk's ordinal, the bodies therefore read `0,1,...,n-1`
in sequence (see the witness). -/
theorem C2_output_document_order
    (oracle : Nat × Nat → Option String) (now src out : String) (fs : FS)
    (max_duration len : Nat) (tf : Nat → String)
    (hM : 0 < max_duration)
    (hw : fs.getAudio src = some (0, len))
    (hlen : 0 < len)
    (horc : ∀ i, i < num_segments len max_duration →
      oracle (chunk_window len max_duration i) = some (tf i))
    (hcl : fs.hasFileIn tempDirName = false)
    (hout : inTempDir out = false) :
    (transcribe_with_models true now oracle fs src (some out) max_duration).exit = 0 ∧
    (transcribe_with_models true now oracle fs src (some out) max_duration).fs.getText out =
      some (headerText src now ++
        renderBodies 0 ((List.range' 0 (num_segments len max_duration)).map tf)) := by
  by_cases hm : 1000 * max_duration < len
  · obtain ⟨he, _, ht, _, _, _, _, _⟩ :=
      run_success_multi oracle now src out fs max_duration len tf hM hw hm horc hcl hout
    exact ⟨he, ht⟩
  · have hsing : len ≤ 1000 * max_duration := by omega
    have hn1 : num_segments len max_duration = 1 := by
      have hle := (num_segments_le_one_iff len max_duration hM).mpr hsing
      have hpos := num_segments_pos len max_duration hM hlen
      omega
    have hor0 := horc 0 (by omega)
    rw [chunk_window_zero_single len max_duration hsing] at hor0
    obtain ⟨he, _, ht, _, _, _⟩ :=
      run_single_ok oracle now src out fs max_duration len (tf 0) hM hw hsing hor0
    refine ⟨he, ?_⟩
    rw [ht, hn1]
    simp [List.range'_one]

/-- Witness for C2: a three-chunk run with a mock oracle that returns the
chunk's ordinal as text; the output file reads the header, then the
bodies `0`, `1`, `2` in sequence, each after the first preceded by the
separator. -/
theorem C2_output_document_order_witness :
    (0 < 1 ∧
      (FS.mk [("a.mp3", (0, 3000))] [] []).getAudio "a.mp3" = some (0, 3000) ∧
      0 < 3000 ∧
      (∀ i, i < num_segments 3000 1 →
        (fun w => some (Nat.repr (w.1 / 1000))) (chunk_window 3000 1 i) =
          some ((fun i => Nat.repr i) i)) ∧
      (FS.mk [("a.mp3", (0, 3000))] [] []).hasFileIn tempDirName = false ∧
      inTempDir "out.txt" = false) ∧
    (List.range' 0 (num_segments 3000 1)).map (fun i => Nat.repr i) = ["0", "1", "2"] ∧
    ((transcribe_with_models true "TS" (fun w => some (Nat.repr (w.1 / 1000)))
        (FS.mk [("a.mp3", (0, 3000))] [] []) "a.mp3" (some "out.txt") 1).exit = 0 ∧
      (transcribe_with_models true "TS" (fun w => some (Nat.repr (w.1 / 1000)))
          (FS.mk [("a.mp3", (0, 3000))] [] []) "a.mp3" (some "out.txt") 1).fs.getText
        "out.txt" =
        some (headerText "a.mp3" "TS" ++
          renderBodies 0 ((List.range' 0 (num_segments 3000 1)).map (fun i => Nat.repr i)))) :=
  ⟨⟨by decide, by decide, by decide, by decide, by decide, by decide⟩, by decide,
    C2_output_document_order (fun w => some (Nat.repr (w.1 / 1000))) "TS" "a.mp3" "out.txt"
      (FS.mk [("a.mp3", (0, 3000))] [] []) 1 3000 (fun i => Nat.repr i)
      (by decide) (by decide) (by decide) (by decide) (by decide) (by decide)⟩

/-- C4: when the service succeeds on chunks `0..k-1` and fails on chunk
`k`, the run returns failure (exit 1), exactly the windows of chunks
`0..k` are ever submitted to the service (no chunk after `k`), and the
output file holds exactly the header plus the `k` completed bodies,
durably recorded. -/
theorem C4_service_failure_at_k
    (oracle : Nat × Nat → Option String) (now src out : String) (fs : FS)
    (max_duration len k : Nat) (tf : Nat → String)
    (hM : 0 < max_duration)
    (hw : fs.getAudio src = some (0, len))
    (hk : k < num_segments len max_duration)
    (horc : ∀ i, i < k → oracle (chunk_window len max_duration i) = some (tf i))
    (hfail : oracle (chunk_window len max_duration k) = none) :
    (transcribe_with_models true now oracle fs src (some out) max_duration).exit = 1 ∧
    (transcribe_with_models true now oracle fs src (some out) max_duration).calls =
      (List.range' 0 (k + 1)).map (chunk_window len max_duration) ∧
    (transcribe_with_models true now oracle fs src (some out) max_duration).fs.getText out =
      some (headerText src now ++ renderBodies 0 ((List.range' 0 k).map tf)) := by
  have hlen : 0 < len := by
    rcases Nat.eq_zero_or_pos len with h0 | h
    · exfalso
      rw [h0] at hk
      have hz : num_segments 0 max_duration = 0 := by
        rw [num_segments]
        exact Nat.div_eq_of_lt (by omega)
      omega
    · exact h
  by_cases hm : 1000 * max_duration < len
  · obtain ⟨he, hc, ht, _, _, _, _⟩ :=
      run_fail_multi oracle now src out fs max_duration len k tf hM hw hm hk horc hfail
    exact ⟨he, hc, ht⟩
  · have hsing : len ≤ 1000 * max_duration := by omega
    have hn1 : num_segments len max_duration = 1 := by
      have hle := (num_segments_le_one_iff len max_duration hM).mpr hsing
      have hpos := num_segments_pos len max_duration hM hlen
      omega
    have hk0 : k = 0 := by omega
    subst hk0
    rw [chunk_window_zero_single len max_duration hsing] at hfail
    obtain ⟨he, hc, ht, _, _, _⟩ :=
      run_single_fail oracle now src out fs max_duration len hM hw hsing hfail
    refine ⟨he, ?_, ?_⟩
    · rw [hc]
      simp [List.range'_one, chunk_window_zero_single len max_duration hsing]
    · rw [ht]
      simp [renderBodies, string_append_empty]

/-- Witness for C4: a three-chunk run whose oracle fails on chunk 1:
exit 1, submitted windows are exactly chunks 0 and 1, and the output
holds the header plus body 0 only. -/
theorem C4_service_failure_at_k_witness :
    (0 < 1 ∧
      (FS.mk [("a.mp3", (0, 3000))] [] []).getAudio "a.mp3" = some (0, 3000) ∧
      1 < num_segments 3000 1 ∧
      (∀ i, i < 1 →
        (fun w => if w.1 = 1000 then none else some "x") (chunk_window 3000 1 i) =
          some ((fun _ => "x") i)) ∧
      (fun w => if w.1 = 1000 then none else some "x") (chunk_window 3000 1 1) = none) ∧
    (List.range' 0 (1 + 1)).map (chunk_window 3000 1) = [(0, 1000), (1000, 2000)] ∧
    ((transcribe_with_models true "TS" (fun w => if w.1 = 1000 then none else some "x")
        (FS.mk [("a.mp3", (0, 3000))] [] []) "a.mp3" (some "out.txt") 1).exit = 1 ∧
      (transcribe_with_models true "TS" (fun w => if w.1 = 1000 then none else some "x")
          (FS.mk [("a.mp3", (0, 3000))] [] []) "a.mp3" (some "out.txt") 1).calls =
        (List.range' 0 (1 + 1)).map (chunk_window 3000 1) ∧
      (transcribe_with_models true "TS" (fun w => if w.1 = 1000 then none else some "x")
          (FS.mk [("a.mp3", (0, 3000))] [] []) "a.mp3" (some "out.txt") 1).fs.getText
        "out.txt" =
        some (headerText "a.mp3" "TS" ++
          renderBodies 0 ((List.range' 0 1).map (fun _ => "x")))) :=
  ⟨⟨by decide, by decide, by decide, by decide, by decide⟩, by decide,
    C4_service_failure_at_k (fun w => if w.1 = 1000 then none else some "x") "TS" "a.mp3"
      "out.txt" (FS.mk [("a.mp3", (0, 3000))] [] []) 1 3000 1 (fun _ => "x")
      (by decide) (by decide) (by decide) (by decide) (by decide)⟩

/-- C7: after a successful multi-chunk run no chunk file remains, the
temporary chunk directory no longer exists, and the original input file
is unmodified and still present on disk. -/
theorem C7_success_leaves_no_temp
    (oracle : Nat × Nat → Option String) (now src out : String) (fs : FS)
    (max_duration len : Nat) (tf : Nat → String)
    (hM : 0 < max_duration)
    (hw : fs.getAudio src = some (0, len))
    (hmulti : 1000 * max_duration < len)
    (horc : ∀ i, i < num_segments len max_duration →
      oracle (chunk_window len max_duration i) = some (tf i))
    (hcl : fs.hasFileIn tempDirName = false)
    (hout : inTempDir out = false) :
    (transcribe_with_models true now oracle fs src (some out) max_duration).exit = 0 ∧
    (∀ i, i < num_segments len max_duration →
      (transcribe_with_models true now oracle fs src (some out) max_duration).fs.getAudio
        (segPath i) = none) ∧
    tempDirName ∉
      (transcribe_with_models true now oracle fs src (some out) max_duration).fs.dirs ∧
    (transcribe_with_models true now oracle fs src (some out) max_duration).fs.getAudio src =
      some (0, len) := by
  obtain ⟨he, _, _, _, hseg, hother, htmp, _⟩ :=
    run_success_multi oracle now src out fs max_duration len tf hM hw hmulti horc hcl hout
  refine ⟨he, hseg, htmp, ?_⟩
  have hsrcmem := alookup_some_mem hw
  have hsrcpre := (FS.hasFileIn_false_elim fs tempDirName hcl).1 _ hsrcmem
  have hsrctmp : inTempDir src = false := hsrcpre
  rw [hother src hsrctmp]
  exact hw

/-- Witness for C7: a successful three-chunk run ends with no segment
files, no temporary directory, and the untouched original. -/
theorem C7_success_leaves_no_temp_witness :
    (0 < 1 ∧
      (FS.mk [("a.mp3", (0, 3000))] [] []).getAudio "a.mp3" = some (0, 3000) ∧
      1000 * 1 < 3000 ∧
      (∀ i, i < num_segments 3000 1 →
        (fun w => some (Nat.repr (w.1 / 1000))) (chunk_window 3000 1 i) =
          some ((fun i => Nat.repr i) i)) ∧
      (FS.mk [("a.mp3", (0, 3000))] [] []).hasFileIn tempDirName = false ∧
      inTempDir "out.txt" = false) ∧
    ((transcribe_with_models true "TS" (fun w => some (Nat.repr (w.1 / 1000)))
        (FS.mk [("a.mp3", (0, 3000))] [] []) "a.mp3" (some "out.txt") 1).exit = 0 ∧
      (∀ i, i < num_segments 3000 1 →
        (transcribe_with_models true "TS" (fun w => some (Nat.repr (w.1 / 1000)))
            (FS.mk [("a.mp3", (0, 3000))] [] []) "a.mp3" (some "out.txt") 1).fs.getAudio
          (segPath i) = none) ∧
      tempDirName ∉
        (transcribe_with_models true "TS" (fun w => some (Nat.repr (w.1 / 1000)))
          (FS.mk [("a.mp3", (0, 3000))] [] []) "a.mp3" (some "out.txt") 1).fs.dirs ∧
      (transcribe_with_models true "TS" (fun w => some (Nat.repr (w.1 / 1000)))
          (FS.mk [("a.mp3", (0, 3000))] [] []) "a.mp3" (some "out.txt") 1).fs.getAudio
        "a.mp3" = some (0, 3000)) :=
  ⟨⟨by decide, by decide, by decide, by decide, by decide, by decide⟩,
    C7_success_leaves_no_temp (fun w => some (Nat.repr (w.1 / 1000))) "TS" "a.mp3" "out.txt"
      (FS.mk [("a.mp3", (0, 3000))] [] []) 1 3000 (fun i => Nat.repr i)
      (by decide) (by decide) (by decide) (by decide) (by decide) (by decide)⟩

/-- C10: an explicit output path holding prior content is truncated: the
header is written with mode `'w'`, so after the run the file contains
only this run's header and segment bodies — the conclusion does not
depend on the prior content `old`, which therefore never survives. -/
theorem C10_output_truncated
    (oracle : Nat × Nat → Option String) (now src out : String) (fs : FS)
    (max_duration len : Nat) (tf : Nat → String) (old : String)
    (hM : 0 < max_duration)
    (hw : fs.getAudio src = some (0, len))
    (hmulti : 1000 * max_duration < len)
    (horc : ∀ i, i < num_segments len max_duration →
      oracle (chunk_window len max_duration i) = some (tf i))
    (hcl : fs.hasFileIn tempDirName = false)
    (hout : inTempDir out = false)
    (_hold : fs.getText out = some old) :
    (transcribe_with_models true now oracle fs src (some out) max_duration).fs.getText out =
      some (headerText src now ++
        renderBodies 0 ((List.range' 0 (num_segments len max_duration)).map tf)) := by
  obtain ⟨_, _, ht, _, _, _, _, _⟩ :=
    run_success_multi oracle now src out fs max_duration len tf hM hw hmulti horc hcl hout
  exact ht

/-- Witness for C10: the output file initially holds `"OLD"`; after the
run it holds exactly the header and the bodies — the prior content is
gone. -/
theorem C10_output_truncated_witness :
    (0 < 1 ∧
      (FS.mk [("a.mp3", (0, 3000))] [("out.txt", "OLD")] []).getAudio "a.mp3" =
        some (0, 3000) ∧
      1000 * 1 < 3000 ∧
      (∀ i, i < num_segments 3000 1 →
        (fun w => some (Nat.repr (w.1 / 1000))) (chunk_window 3000 1 i) =
          some ((fun i => Nat.repr i) i)) ∧
      (FS.mk [("a.mp3", (0, 3000))] [("out.txt", "OLD")] []).hasFileIn tempDirName = false ∧
      inTempDir "out.txt" = false ∧
      (FS.mk [("a.mp3", (0, 3000))] [("out.txt", "OLD")] []).getText "out.txt" =
        some "OLD") ∧
    (transcribe_with_models true "TS" (fun w => some (Nat.repr (w.1 / 1000)))
        (FS.mk [("a.mp3", (0, 3000))] [("out.txt", "OLD")] []) "a.mp3" (some "out.txt")
        1).fs.getText "out.txt" =
      some (headerText "a.mp3" "TS" ++
        renderBodies 0 ((List.range' 0 (num_segments 3000 1)).map (fun i => Nat.repr i))) ∧
    (transcribe_with_models true "TS" (fun w => some (Nat.repr (w.1 / 1000)))
        (FS.mk [("a.mp3", (0, 3000))] [("out.txt", "OLD")] []) "a.mp3" (some "out.txt")
        1).fs.getText "out.txt" ≠ some "OLD" :=
  ⟨⟨by decide, by decide, by decide, by decide, by decide, by decide, by decide⟩,
    C10_output_truncated (fun w => some (Nat.repr (w.1 / 1000))) "TS" "a.mp3" "out.txt"
      (FS.mk [("a.mp3", (0, 3000))] [("out.txt", "OLD")] []) 1 3000 (fun i => Nat.repr i)
      "OLD" (by decide) (by decide) (by decide) (by decide) (by decide) (by decide)
      (by decide),
    by decide⟩

/-! ### C5 and C6: what the cleanup actually does on failure -/

theorem cleanup_phase_err {ps : List String} {src : String} {fs : FS} {e : PyErr}
    (hlen : 1 < ps.length)
    (herr : (cleanup_segments src ps fs).2 = some e) :
    cleanup_phase ps src fs = ((cleanup_segments src ps fs).1, some e) := by
  have hX : cleanup_segments src ps fs = ((cleanup_segments src ps fs).1, some e) := by
    rw [← herr]
  rw [cleanup_phase, if_pos hlen, hX]

theorem finish_phase_err {ps : List String} {src : String} {fs fs1 : FS} {e : PyErr}
    (calls : List (Nat × Nat)) (h : cleanup_phase ps src fs = (fs1, some e)) :
    finish_phase ps src fs calls = ⟨1, fs1, calls⟩ := by
  rw [finish_phase, h]

/-- Counterexample to C5: a three-chunk run whose service call fails on
chunk 1 returns failure, yet every chunk artifact is still on disk and
the temporary chunk directory still exists — the Orchestrator does not
delete chunk artifacts before returning its failure result (cleanup,
lines 136–142, runs inside the `try` only after the loop finished). -/
theorem C5_counterexample :
    (transcribe_with_models true "TS" (fun w => if w.1 = 1000 then none else some "x")
        (FS.mk [("a.mp3", (0, 3000))] [] []) "a.mp3" (some "out.txt") 1).exit = 1 ∧
    (transcribe_with_models true "TS" (fun w => if w.1 = 1000 then none else some "x")
        (FS.mk [("a.mp3", (0, 3000))] [] []) "a.mp3" (some "out.txt") 1).fs.getAudio
      "temp_audio_segments/segment_0.mp3" = some (0, 1000) ∧
    (transcribe_with_models true "TS" (fun w => if w.1 = 1000 then none else some "x")
        (FS.mk [("a.mp3", (0, 3000))] [] []) "a.mp3" (some "out.txt") 1).fs.getAudio
      "temp_audio_segments/segment_2.mp3" = some (2000, 3000) ∧
    tempDirName ∈
      (transcribe_with_models true "TS" (fun w => if w.1 = 1000 then none else some "x")
        (FS.mk [("a.mp3", (0, 3000))] [] []) "a.mp3" (some "out.txt") 1).fs.dirs := by
  decide

/-- C5 (amended): on a multi-chunk run that reaches a service failure at
chunk `k`, the Orchestrator returns its failure result **without**
deleting any chunk artifact: every chunk file is still present with its
window, and the temporary chunk directory still exists.  (Cleanup runs
only on the success path.) -/
theorem C5_no_cleanup_on_failure
    (oracle : Nat × Nat → Option String) (now src out : String) (fs : FS)
    (max_duration len k : Nat) (tf : Nat → String)
    (hM : 0 < max_duration)
    (hw : fs.getAudio src = some (0, len))
    (hmulti : 1000 * max_duration < len)
    (hk : k < num_segments len max_duration)
    (horc : ∀ i, i < k → oracle (chunk_window len max_duration i) = some (tf i))
    (hfail : oracle (chunk_window len max_duration k) = none) :
    (transcribe_with_models true now oracle fs src (some out) max_duration).exit = 1 ∧
    (∀ i, i < num_segments len max_duration →
      (transcribe_with_models true now oracle fs src (some out) max_duration).fs.getAudio
        (segPath i) = some (chunk_window len max_duration i)) ∧
    tempDirName ∈
      (transcribe_with_models true now oracle fs src (some out) max_duration).fs.dirs := by
  obtain ⟨he, _, _, _, hseg, htmp, _⟩ :=
    run_fail_multi oracle now src out fs max_duration len k tf hM hw hmulti hk horc hfail
  exact ⟨he, hseg, htmp⟩

/-- Witness for the amended C5: the concrete failing run of the
counterexample, through the amended theorem. -/
theorem C5_no_cleanup_on_failure_witness :
    (0 < 1 ∧
      (FS.mk [("a.mp3", (0, 3000))] [] []).getAudio "a.mp3" = some (0, 3000) ∧
      1000 * 1 < 3000 ∧
      1 < num_segments 3000 1 ∧
      (∀ i, i < 1 →
        (fun w => if w.1 = 1000 then none else some "x") (chunk_window 3000 1 i) =
          some ((fun _ => "x") i)) ∧
      (fun w => if w.1 = 1000 then none else some "x") (chunk_window 3000 1 1) = none) ∧
    ((transcribe_with_models true "TS" (fun w => if w.1 = 1000 then none else some "x")
        (FS.mk [("a.mp3", (0, 3000))] [] []) "a.mp3" (some "out.txt") 1).exit = 1 ∧
      (∀ i, i < num_segments 3000 1 →
        (transcribe_with_models true "TS" (fun w => if w.1 = 1000 then none else some "x")
            (FS.mk [("a.mp3", (0, 3000))] [] []) "a.mp3" (some "out.txt") 1).fs.getAudio
          (segPath i) = some (chunk_window 3000 1 i)) ∧
      tempDirName ∈
        (transcribe_with_models true "TS" (fun w => if w.1 = 1000 then none else some "x")
          (FS.mk [("a.mp3", (0, 3000))] [] []) "a.mp3" (some "out.txt") 1).fs.dirs) :=
  ⟨⟨by decide, by decide, by decide, by decide, by decide, by decide⟩,
    C5_no_cleanup_on_failure (fun w => if w.1 = 1000 then none else some "x") "TS" "a.mp3"
      "out.txt" (FS.mk [("a.mp3", (0, 3000))] [] []) 1 3000 1 (fun _ => "x")
      (by decide) (by decide) (by decide) (by decide) (by decide) (by decide)⟩

/-- Counterexample to C6: the cleanup step run on two identical states —
one where `segment_0` is already gone, one where it is present.  With
the file present the run finishes with exit 0 and everything removed;
with it missing, `os.remove` raises, the run is turned into a failure
(exit 1), `segment_1` is *not* deleted and the temporary directory is
*not* removed — so cleanup does change the run's result and does not
continue past the missing file. -/
theorem C6_counterexample :
    finish_phase [segPath 0, segPath 1] "a.mp3"
        (FS.mk [(segPath 1, (1000, 2000))] [] [tempDirName]) [] =
      ⟨1, FS.mk [(segPath 1, (1000, 2000))] [] [tempDirName], []⟩ ∧
    finish_phase [segPath 0, segPath 1] "a.mp3"
        (FS.mk [(segPath 0, (0, 1000)), (segPath 1, (1000, 2000))] [] [tempDirName]) [] =
      ⟨0, FS.mk [] [] [], []⟩ := by
  decide

/-- C6 (amended): when a chunk artifact scheduled for deletion is already
gone at cleanup time, `os.remove` raises `FileNotFoundError`, which the
top-level handler converts into a *failed* run (exit 1); the artifacts
scheduled after the missing one are not deleted (every path outside the
already-processed ones keeps its file) and the temporary directory is
not removed. -/
theorem C6_missing_artifact_is_fatal
    (src : String) (pre : List String) (q : String) (post : List String) (fs : FS)
    (calls : List (Nat × Nat))
    (hlen : 1 < (pre ++ q :: post).length)
    (hnd : pre.Nodup) (hnsrc : ∀ p ∈ pre, p ≠ src)
    (hpres : ∀ p ∈ pre, (fs.getAudio p).isSome)
    (hqpre : q ∉ pre) (hqs : q ≠ src)
    (hqa : fs.getAudio q = none) (hqt : fs.getText q = none) :
    (finish_phase (pre ++ q :: post) src fs calls).exit = 1 ∧
    (∀ r, r ∉ pre →
      (finish_phase (pre ++ q :: post) src fs calls).fs.getAudio r = fs.getAudio r) ∧
    (finish_phase (pre ++ q :: post) src fs calls).fs.dirs = fs.dirs := by
  obtain ⟨he, _, hd, hun⟩ :=
    cleanup_segments_missing src pre q post fs hnd hnsrc hpres hqpre hqs hqa hqt
  have hcp := cleanup_phase_err hlen he
  have hf := finish_phase_err calls hcp
  rw [hf]
  exact ⟨rfl, hun, hd⟩

/-- Witness for the amended C6: cleanup over `[segment_0, segment_1,
segment_2]` where `segment_1` is gone: the run fails and `segment_2`
keeps its file; the directory stays. -/
theorem C6_missing_artifact_is_fatal_witness :
    (1 < ([segPath 0] ++ segPath 1 :: [segPath 2]).length ∧
      ([segPath 0] : List String).Nodup ∧
      (∀ p ∈ ([segPath 0] : List String), p ≠ "a.mp3") ∧
      (∀ p ∈ ([segPath 0] : List String),
        ((FS.mk [(segPath 0, (0, 1000)), (segPath 2, (2000, 3000))] []
          [tempDirName]).getAudio p).isSome) ∧
      segPath 1 ∉ ([segPath 0] : List String) ∧
      segPath 1 ≠ "a.mp3" ∧
      (FS.mk [(segPath 0, (0, 1000)), (segPath 2, (2000, 3000))] []
        [tempDirName]).getAudio (segPath 1) = none ∧
      (FS.mk [(segPath 0, (0, 1000)), (segPath 2, (2000, 3000))] []
        [tempDirName]).getText (segPath 1) = none) ∧
    ((finish_phase ([segPath 0] ++ segPath 1 :: [segPath 2]) "a.mp3"
        (FS.mk [(segPath 0, (0, 1000)), (segPath 2, (2000, 3000))] [] [tempDirName])
        []).exit = 1 ∧
      (∀ r, r ∉ ([segPath 0] : List String) →
        (finish_phase ([segPath 0] ++ segPath 1 :: [segPath 2]) "a.mp3"
            (FS.mk [(segPath 0, (0, 1000)), (segPath 2, (2000, 3000))] [] [tempDirName])
            []).fs.getAudio r =
          (FS.mk [(segPath 0, (0, 1000)), (segPath 2, (2000, 3000))] []
            [tempDirName]).getAudio r) ∧
      (finish_phase ([segPath 0] ++ segPath 1 :: [segPath 2]) "a.mp3"
          (FS.mk [(segPath 0, (0, 1000)), (segPath 2, (2000, 3000))] [] [tempDirName])
          []).fs.dirs =
        (FS.mk [(segPath 0, (0, 1000)), (segPath 2, (2000, 3000))] [] [tempDirName]).dirs) :=
  ⟨⟨by decide, by decide, by decide, by decide, by decide, by decide, by decide, by decide⟩,
    C6_missing_artifact_is_fatal "a.mp3" [segPath 0] (segPath 1) [segPath 2]
      (FS.mk [(segPath 0, (0, 1000)), (segPath 2, (2000, 3000))] [] [tempDirName]) []
      (by decide) (by decide) (by decide) (by decide) (by decide) (by decide) (by decide)
      (by decide)⟩

end Transcriber
